import Mathlib

/-!
Verification development for the Harvester crawl execution engine.

The definitions below are a shallow embedding of the Python sources:
  - `src/crawler/core/smart_crawler.py`    (SmartCrawler)
  - `src/crawler/strategies/anti_duplication.py` (AntiDuplicationEngine)
  - `src/crawler/utils/rate_limiter.py`    (RateLimiter)

Python floats are modelled as exact rationals (ℚ), Python ints as ℤ/ℕ,
strings as `String`/`List Char` (ASCII-faithful), database tables as
association lists, and network / storage effects as explicit environment
records (oracles) threaded through the pure functions.
-/

set_option maxRecDepth 100000

/-! ## Character-level helpers (Python `str.strip`, `str.lower`, `re.sub`) -/

/-- Python whitespace class `\s` restricted to ASCII, matching
`Char.isWhitespace` (space, tab, CR, LF). -/
def pyIsSpace (c : Char) : Bool := c.isWhitespace

/-- `str.lower` on a single character (ASCII-faithful). -/
def pyLowerChar (c : Char) : Char := c.toLower

/-- Python `str.strip()`: drop leading and trailing whitespace. -/
def pyStrip (l : List Char) : List Char :=
  ((l.dropWhile pyIsSpace).reverse.dropWhile pyIsSpace).reverse

/-- Python `str.lower()` over a character list. -/
def pyLower (l : List Char) : List Char := l.map pyLowerChar

/-- Worker for `re.sub(r'\s+', ' ', s)`: the boolean records whether the
previous character belonged to a whitespace run already replaced. -/
def collapseGo : List Char → Bool → List Char
  | [], _ => []
  | c :: cs, prevWs =>
    if pyIsSpace c then
      if prevWs then collapseGo cs true else ' ' :: collapseGo cs true
    else c :: collapseGo cs false

/-- `re.sub(r'\s+', ' ', s)`: replace each maximal whitespace run by one
space. -/
def collapseWs (l : List Char) : List Char := collapseGo l false

/-- Normalization performed by `SmartCrawler._calculate_content_hash`:
`re.sub(r'\s+', ' ', content.strip().lower())`. -/
def normalizeChars (l : List Char) : List Char := collapseWs (pyLower (pyStrip l))

/-- Worker for whitespace splitting, accumulating the current word
reversed. -/
def wordsAux : List Char → List Char → List (List Char)
  | [], acc => if acc.isEmpty then [] else [acc.reverse]
  | c :: cs, acc =>
    if pyIsSpace c then
      if acc.isEmpty then wordsAux cs [] else acc.reverse :: wordsAux cs []
    else wordsAux cs (c :: acc)

/-- Python `str.split()` with no argument: whitespace-separated words,
empty pieces dropped. -/
def wordsOf (l : List Char) : List (List Char) := wordsAux l []

/-- Join words with single spaces (the canonical image of `collapseWs`
composed with `pyStrip`). -/
def joinWords : List (List Char) → List Char
  | [] => []
  | [w] => w
  | w :: ws => w ++ ' ' :: joinWords ws

/-! ## SHA-256 (`hashlib.sha256(...).hexdigest()`), executable over ℕ -/

/-- Truncate to a 32-bit word. -/
def w32 (n : ℕ) : ℕ := n % 4294967296

/-- 32-bit rotate right. -/
def rotr32 (k x : ℕ) : ℕ := ((x >>> k) ||| (x <<< (32 - k))) % 4294967296

def shaCh (x y z : ℕ) : ℕ := (x &&& y) ^^^ ((x ^^^ 4294967295) &&& z)

def shaMaj (x y z : ℕ) : ℕ := (x &&& y) ^^^ (x &&& z) ^^^ (y &&& z)

def shaBig0 (x : ℕ) : ℕ := rotr32 2 x ^^^ rotr32 13 x ^^^ rotr32 22 x

def shaBig1 (x : ℕ) : ℕ := rotr32 6 x ^^^ rotr32 11 x ^^^ rotr32 25 x

def shaSmall0 (x : ℕ) : ℕ := rotr32 7 x ^^^ rotr32 18 x ^^^ (x >>> 3)

def shaSmall1 (x : ℕ) : ℕ := rotr32 17 x ^^^ rotr32 19 x ^^^ (x >>> 10)

/-- FIPS 180-4 round constants (fractional cube-root bits), in decimal. -/
def shaK : List ℕ :=
  [1116352408, 1899447441, 3049323471, 3921009573, 961987163, 1508970993,
   2453635748, 2870763221, 3624381080, 310598401, 607225278, 1426881987,
   1925078388, 2162078206, 2614888103, 3248222580, 3835390401, 4022224774,
   264347078, 604807628, 770255983, 1249150122, 1555081692, 1996064986,
   2554220882, 2821834349, 2952996808, 3210313671, 3336571891, 3584528711,
   113926993, 338241895, 666307205, 773529912, 1294757372, 1396182291,
   1695183700, 1986661051, 2177026350, 2456956037, 2730485921, 2820302411,
   3259730800, 3345764771, 3516065817, 3600352804, 4094571909, 275423344,
   430227734, 506948616, 659060556, 883997877, 958139571, 1322822218,
   1537002063, 1747873779, 1955562222, 2024104815, 2227730452, 2361852424,
   2428436474, 2756734187, 3204031479, 3329325298]

/-- FIPS 180-4 initial hash state (fractional square-root bits), in decimal. -/
def shaH0 : List ℕ :=
  [1779033703, 3144134277, 1013904242, 2773480762,
   1359893119, 2600822924, 528734635, 1541459225]

/-- Big-endian byte expansion of a natural number to `k` bytes. -/
def natToBytesBE : ℕ → ℕ → List ℕ
  | 0, _ => []
  | k + 1, n => natToBytesBE k (n / 256) ++ [n % 256]

/-- SHA-256 message padding. -/
def padBytes (msg : List ℕ) : List ℕ :=
  let L := msg.length
  let k := (120 - ((L + 1) % 64)) % 64
  msg ++ 128 :: List.replicate k 0 ++ natToBytesBE 8 (8 * L)

/-- Group bytes into big-endian 32-bit words. -/
def bytesToWords : List ℕ → List ℕ
  | b0 :: b1 :: b2 :: b3 :: rest =>
      (((b0 * 256 + b1) * 256 + b2) * 256 + b3) :: bytesToWords rest
  | _ => []

/-- Group words into 16-word blocks. -/
def wordsToBlocks : List ℕ → List (List ℕ)
  | w0 :: w1 :: w2 :: w3 :: w4 :: w5 :: w6 :: w7 ::
    w8 :: w9 :: w10 :: w11 :: w12 :: w13 :: w14 :: w15 :: rest =>
      [w0, w1, w2, w3, w4, w5, w6, w7, w8, w9, w10, w11, w12, w13, w14, w15] ::
        wordsToBlocks rest
  | _ => []

/-- Extend the 16-word block to the 64-word message schedule (48 steps). -/
def shaExtend : ℕ → List ℕ → List ℕ
  | 0, ws => ws
  | n + 1, ws =>
    let i := ws.length
    let nw := w32 (shaSmall1 (ws.getD (i - 2) 0) + ws.getD (i - 7) 0 +
                   shaSmall0 (ws.getD (i - 15) 0) + ws.getD (i - 16) 0)
    shaExtend n (ws ++ [nw])

structure Sha8 where
  a : ℕ
  b : ℕ
  c : ℕ
  d : ℕ
  e : ℕ
  f : ℕ
  g : ℕ
  hh : ℕ

def shaRound (st : Sha8) (kw : ℕ × ℕ) : Sha8 :=
  let t1 := w32 (st.hh + shaBig1 st.e + shaCh st.e st.f st.g + kw.1 + kw.2)
  let t2 := w32 (shaBig0 st.a + shaMaj st.a st.b st.c)
  ⟨w32 (t1 + t2), st.a, st.b, st.c, w32 (st.d + t1), st.e, st.f, st.g⟩

def shaCompress (hs : List ℕ) (block : List ℕ) : List ℕ :=
  let ws := shaExtend 48 block
  let st0 : Sha8 := ⟨hs.getD 0 0, hs.getD 1 0, hs.getD 2 0, hs.getD 3 0,
                     hs.getD 4 0, hs.getD 5 0, hs.getD 6 0, hs.getD 7 0⟩
  let st := (shaK.zip ws).foldl shaRound st0
  [w32 (hs.getD 0 0 + st.a), w32 (hs.getD 1 0 + st.b), w32 (hs.getD 2 0 + st.c),
   w32 (hs.getD 3 0 + st.d), w32 (hs.getD 4 0 + st.e), w32 (hs.getD 5 0 + st.f),
   w32 (hs.getD 6 0 + st.g), w32 (hs.getD 7 0 + st.hh)]

def sha256Words (bytes : List ℕ) : List ℕ :=
  (wordsToBlocks (bytesToWords (padBytes bytes))).foldl shaCompress shaH0

def hexDigit (n : ℕ) : Char :=
  if n < 10 then Char.ofNat (48 + n) else Char.ofNat (87 + n)

def wordToHex (n : ℕ) : List Char :=
  [hexDigit ((n >>> 28) % 16), hexDigit ((n >>> 24) % 16),
   hexDigit ((n >>> 20) % 16), hexDigit ((n >>> 16) % 16),
   hexDigit ((n >>> 12) % 16), hexDigit ((n >>> 8) % 16),
   hexDigit ((n >>> 4) % 16), hexDigit (n % 16)]

def sha256hexBytes (bytes : List ℕ) : String :=
  String.mk ((sha256Words bytes).map wordToHex).flatten

/-- UTF-8 encoding of one character. -/
def utf8Enc (c : Char) : List ℕ :=
  let n := c.toNat
  if n < 128 then [n]
  else if n < 2048 then [192 + n / 64, 128 + n % 64]
  else if n < 65536 then [224 + n / 4096, 128 + (n / 64) % 64, 128 + n % 64]
  else [240 + n / 262144, 128 + (n / 4096) % 64, 128 + (n / 64) % 64, 128 + n % 64]

def strBytes (l : List Char) : List ℕ := (l.map utf8Enc).flatten

/-- `hashlib.sha256(s.encode('utf-8')).hexdigest()`. -/
def sha256hex (s : String) : String := sha256hexBytes (strBytes s.data)

/-- `SmartCrawler._calculate_content_hash`: normalize (collapse whitespace
runs, strip, lowercase) then SHA-256. -/
def calculate_content_hash (content : String) : String :=
  sha256hexBytes (strBytes (normalizeChars content.data))

example : sha256hex "abc" =
    "ba7816bf8f01cfea414140de5dae2223b00361a396177a9cb410ff61f20015ad" := by decide

example : calculate_content_hash " Hello  WORLD " = calculate_content_hash "hello world" := by
  decide

/-! ## RateLimiter (`src/crawler/utils/rate_limiter.py`)

Times and rates are exact rationals.  A single host's throttle data is
modelled explicitly; the per-domain dictionaries of the Python class are
projections of this per-host state (`domain_limits.get(domain, default)`
is materialized in the `limit` field, `error_counts[domain]` in
`error_count`, `last_request.get(domain, 0)` in `last_request`,
`request_history[domain]` in `history`). -/

structure RateLimit where
  requests_per_second : ℚ
  burst_size : ℤ
  delay_between_requests : ℚ
deriving DecidableEq

/-- `RateLimiter.default_limit` (constructor call in `__init__`). -/
def default_limit : RateLimit := ⟨1, 3, 1⟩

/-- Mutable per-host data read and written by `handle_response`. -/
structure HostState where
  limit : RateLimit
  error_count : ℕ
deriving DecidableEq

/-- The history cleanup loop in `_calculate_wait_time`:
`while history and current_time - history[0] > 60: history.popleft()`. -/
def cleanHistory (history : List ℚ) (now : ℚ) : List ℚ :=
  history.dropWhile (fun t => decide (now - t > 60))

/-- `RateLimiter._calculate_wait_time`, as a pure function of the host's
recorded data and the current time.  Python truthiness of
`oldest_in_window` (both `None` and `0.0` are falsy) is modelled
explicitly. -/
def calculate_wait_time (last_request : ℚ) (history : List ℚ) (now : ℚ)
    (limit : RateLimit) : ℚ :=
  let time_since_last := now - last_request
  if time_since_last < limit.delay_between_requests then
    limit.delay_between_requests - time_since_last
  else
    let history := cleanHistory history now
    let recent_requests := (history.filter (fun t => decide (now - t ≤ 1))).length
    let afterWindow : ℚ :=
      if (history.length : ℤ) ≥ limit.burst_size then
        let burst_requests := (history.filter (fun t => decide (now - t ≤ 10))).length
        if (burst_requests : ℤ) ≥ limit.burst_size then
          10 / (limit.burst_size : ℚ)
        else 0
      else 0
    if (recent_requests : ℚ) ≥ limit.requests_per_second then
      match history.find? (fun t => decide (now - t ≤ 1)) with
      | some oldest => if oldest ≠ 0 then 1 - (now - oldest) else afterWindow
      | none => afterWindow
    else afterWindow

/-- `RateLimiter._record_request` (overwrites `last_request`, appends to
the bounded deque of length 100). -/
def record_request (_last_request : ℚ) (history : List ℚ) (t : ℚ) :
    ℚ × List ℚ :=
  (t, (if history.length ≥ 100 then history.drop 1 else history) ++ [t])

/-- `RateLimiter._handle_rate_limit_exceeded` (HTTP 429 penalty). -/
def handle_rate_limit_exceeded (st : HostState) : HostState :=
  { limit :=
      { requests_per_second := max (st.limit.requests_per_second * (1/2)) (1/10)
        burst_size := max (st.limit.burst_size - 1) 1
        delay_between_requests := min (st.limit.delay_between_requests * 2) 10 }
    error_count := st.error_count + 1 }

/-- `RateLimiter._handle_server_error` (HTTP 5xx). -/
def handle_server_error (st : HostState) : HostState :=
  let e := st.error_count + 1
  if e > 5 then
    { limit :=
        { requests_per_second := max (st.limit.requests_per_second * (4/5)) (1/5)
          burst_size := st.limit.burst_size
          delay_between_requests := min (st.limit.delay_between_requests * (3/2)) 5 }
      error_count := e }
  else { st with error_count := e }

/-- `RateLimiter._handle_successful_request` (HTTP 200): decrement the
error counter, then raise the rate if the response was fast, the counter
is now zero and the rate is below the 2 req/s ceiling. -/
def handle_successful_request (st : HostState) (response_time : ℚ) : HostState :=
  let e := st.error_count - 1
  if response_time < 1 ∧ e = 0 then
    if st.limit.requests_per_second < 2 then
      { limit :=
          { requests_per_second := min (st.limit.requests_per_second * (11/10)) 2
            burst_size := min (st.limit.burst_size + 1) 10
            delay_between_requests := max (st.limit.delay_between_requests * (19/20)) (1/2) }
        error_count := e }
    else { st with error_count := e }
  else { st with error_count := e }

/-- `RateLimiter.handle_response` dispatch. -/
def handle_response (st : HostState) (status_code : ℤ) (response_time : ℚ) :
    HostState :=
  if status_code = 429 then handle_rate_limit_exceeded st
  else if status_code ≥ 500 then handle_server_error st
  else if status_code = 200 then handle_successful_request st response_time
  else st

/-- A sequence of `handle_response` calls for one host. -/
def handle_chain (st : HostState) (reports : List (ℤ × ℚ)) : HostState :=
  reports.foldl (fun s r => handle_response s r.1 r.2) st

/-! Spec-side admission demands, modelled from the spec's words (§4.1):
"enforce (1) a minimum delay since the last request to this host, (2) a
cap on requests within the trailing 1-second window, (3) a cap on
requests within a 10-second burst window.  The binding constraint is
whichever of the three demands the longest wait."  These are compared
with `calculate_wait_time` (the code) for claim C2. -/

/-- Wait demanded by constraint (1): the minimum inter-request delay. -/
def minDelayDemand (last_request now : ℚ) (limit : RateLimit) : ℚ :=
  max (limit.delay_between_requests - (now - last_request)) 0

/-- Wait demanded by constraint (2): the trailing 1-second window cap.
The demanded wait is the time until the oldest in-window request leaves
the window. -/
def windowDemand (history : List ℚ) (now : ℚ) (limit : RateLimit) : ℚ :=
  let h := cleanHistory history now
  if ((h.filter (fun t => decide (now - t ≤ 1))).length : ℚ) ≥ limit.requests_per_second then
    match h.find? (fun t => decide (now - t ≤ 1)) with
    | some oldest => 1 - (now - oldest)
    | none => 0
  else 0

/-- Wait demanded by constraint (3): the 10-second burst window cap. -/
def burstDemand (history : List ℚ) (now : ℚ) (limit : RateLimit) : ℚ :=
  let h := cleanHistory history now
  if (((h.filter (fun t => decide (now - t ≤ 10))).length : ℤ) ≥ limit.burst_size) then
    10 / (limit.burst_size : ℚ)
  else 0

/-- The spec's admission wait: the longest of the three demands. -/
def specMaxWait (last_request : ℚ) (history : List ℚ) (now : ℚ)
    (limit : RateLimit) : ℚ :=
  max (minDelayDemand last_request now limit)
    (max (windowDemand history now limit) (burstDemand history now limit))

/-! ## AntiDuplicationEngine (`src/crawler/strategies/anti_duplication.py`)

The `content_hashes` table is an association list keyed by the exact
content hash; `hash_cache` is the in-memory hot cache.  The near-duplicate
branch of `is_duplicate` (`_check_content_similarity`, which consults the
articles table and `difflib.SequenceMatcher`) is abstracted as a boolean
oracle `similar content url`; none of the verified claims exercise it, and
in the crawl path (`_crawl_single_url`) `is_duplicate` is always called
without a `content` argument, so the branch is dead there. -/

/-- One row of the `content_hashes` table (`models.ContentHash`);
`duplicate_count` defaults to 0 and the timestamps to the insertion
time. -/
structure HashRecord where
  url_hash : String
  content_length : ℕ
  first_article_id : String
  duplicate_count : ℕ
  first_seen_at : ℚ
  last_seen_at : ℚ
deriving DecidableEq

/-- Engine state: the persisted table plus the hot cache. -/
structure EngineState where
  db : List (String × HashRecord)
  hash_cache : List String
deriving DecidableEq

/-- `AntiDuplicationEngine._check_exact_duplicate`: does the hash exist in
the table? -/
def check_exact_duplicate (db : List (String × HashRecord)) (content_hash : String) : Bool :=
  (db.lookup content_hash).isSome

/-- `AntiDuplicationEngine.is_duplicate`.  Returns the answer together
with the updated state (the database check populates the hot cache on a
hit).  `content = some c` models a provided (truthy) content string. -/
def is_duplicate (similar : String → String → Bool) (s : EngineState)
    (content_hash url : String) (content : Option String) : Bool × EngineState :=
  if s.hash_cache.contains content_hash then (true, s)
  else if check_exact_duplicate s.db content_hash then
    (true, { s with hash_cache := content_hash :: s.hash_cache })
  else
    match content with
    | some c => if c ≠ "" ∧ c.length > 200 then (similar c url, s) else (false, s)
    | none => (false, s)

/-- The SQL UPDATE issued by `register_content_hash` on an existing row:
increment `duplicate_count`, refresh `last_seen_at`. -/
def bumpDuplicate (db : List (String × HashRecord)) (content_hash : String) (now : ℚ) :
    List (String × HashRecord) :=
  db.map fun kv =>
    if kv.1 = content_hash then
      (kv.1, { kv.2 with duplicate_count := kv.2.duplicate_count + 1, last_seen_at := now })
    else kv

/-- `AntiDuplicationEngine.register_content_hash`: returns
`isNewlyRegistered` and the new state.  On first sighting it inserts a row
whose `url_hash` is the SHA-256 of the URL and whose `content_length` is
`len(content_hash)` (the code's stated approximation), and warms the hot
cache; on an existing hash it only bumps the duplicate counter. -/
def register_content_hash (s : EngineState) (content_hash url article_id : String)
    (now : ℚ) : Bool × EngineState :=
  if (s.db.lookup content_hash).isSome then
    (false, { s with db := bumpDuplicate s.db content_hash now })
  else
    let record : HashRecord :=
      { url_hash := sha256hex url
        content_length := content_hash.length
        first_article_id := article_id
        duplicate_count := 0
        first_seen_at := now
        last_seen_at := now }
    (true, { db := s.db ++ [(content_hash, record)], hash_cache := content_hash :: s.hash_cache })

/-- `AntiDuplicationEngine._load_known_hashes`: rebuild the hot cache from
rows first seen within the last 30 days (timestamps in seconds). -/
def load_known_hashes (db : List (String × HashRecord)) (now : ℚ) : List String :=
  (db.filter (fun kv => decide (kv.2.first_seen_at > now - 30 * 86400))).map Prod.fst

/-- `AntiDuplicationEngine.cleanup_old_hashes`: delete rows older than the
age threshold whose duplicate counter is 0, then re-warm the cache.
Returns the number of deleted rows and the new state. -/
def cleanup_old_hashes (s : EngineState) (days_to_keep : ℕ) (now : ℚ) :
    ℕ × EngineState :=
  let keep := s.db.filter fun kv =>
    ¬ (kv.2.first_seen_at < now - (days_to_keep : ℚ) * 86400 ∧ kv.2.duplicate_count = 0)
  (s.db.length - keep.length, { db := keep, hash_cache := load_known_hashes keep now })

/-- Engine-level operations, for stating the duplicate-monotonicity
invariant over arbitrary operation sequences. -/
inductive EngOp where
  | isDup (content_hash url : String) (content : Option String)
  | reg (content_hash url article_id : String) (now : ℚ)
  | clean (days_to_keep : ℕ) (now : ℚ)
deriving DecidableEq

def isCleanOp : EngOp → Bool
  | .clean _ _ => true
  | _ => false

def applyOp (similar : String → String → Bool) (s : EngineState) : EngOp → EngineState
  | .isDup h u c => (is_duplicate similar s h u c).2
  | .reg h u a t => (register_content_hash s h u a t).2
  | .clean d t => (cleanup_old_hashes s d t).2

def applyOps (similar : String → String → Bool) (s : EngineState) (ops : List EngOp) :
    EngineState :=
  ops.foldl (applyOp similar) s

/-! ## SmartCrawler (`src/crawler/core/smart_crawler.py`)

Network and storage effects are supplied through per-URL environment
records: `headResp` is the outcome of the HEAD probe (`None` = the probe
raised), `storedMeta` the `(etag, last_modified)` pair stored in the
`articles` table for the URL, `getResp` the outcome of the full GET
(`Except.error` = the GET raised), `extracted` the content extractor's
output for the fetched body.  URL discovery, which only produces the
bounded URL list, is represented by the environment's `urls` field. -/

/-- `settings.supported_languages` (config.py). -/
def supported_languages : List String := ["en", "fr", "es", "de", "it"]

/-- `settings.default_language` (config.py). -/
def default_language : String := "en"

/-- The `CrawlResult` dataclass. -/
structure CrawlResult where
  url : String
  success : Bool
  status_code : ℤ
  content : String
  title : String
  author : String
  published_at : Option ℚ
  content_hash : String
  is_duplicate : Bool
  error_message : String
  processing_time : ℚ
deriving DecidableEq

/-- The statistics dictionary built by `crawl_source`. -/
structure Stats where
  pages_crawled : ℕ
  pages_processed : ℕ
  pages_failed : ℕ
  new_articles : ℕ
  updated_articles : ℕ
  duplicates_found : ℕ
  errors : List String
  duration : ℚ
deriving DecidableEq

def initStats : Stats := ⟨0, 0, 0, 0, 0, 0, [], 0⟩

/-- Headers of the HEAD probe used by `_should_crawl_url`. -/
structure HeadResp where
  status : ℤ
  etag : Option String
  last_modified : Option String
deriving DecidableEq

structure GetResp where
  status : ℤ
  body : String
deriving DecidableEq

/-- Exceptions of the GET in `_crawl_single_url`: `asyncio.TimeoutError`
is reported as the fixed message `"Timeout"`, any other exception as its
string. -/
inductive FetchExn where
  | timeout
  | other (msg : String)
deriving DecidableEq

def excMsg : FetchExn → String
  | .timeout => "Timeout"
  | .other m => m

/-- Output of `ContentExtractor.extract_content` for the fetched body. -/
structure Extracted where
  content : String
  title : String
  author : String
  published_at : Option ℚ
deriving DecidableEq

/-- Per-URL effect environment for `_crawl_single_url`. -/
structure UrlEnv where
  headResp : Option HeadResp
  storedMeta : Option (Option String × Option String)
  getResp : Except FetchExn GetResp
  extracted : Extracted
  elapsed : ℚ

/-- Python truthiness of an optional string (`None` and `''` are falsy). -/
def truthyOpt (o : Option String) : Bool :=
  match o with
  | some s => s ≠ ""
  | none => false

/-- `SmartCrawler._check_content_freshness`: `False` (content unchanged)
exactly when the probed ETag or Last-Modified is truthy and equals the
stored value for the URL. -/
def check_content_freshness (stored : Option (Option String × Option String))
    (etag last_modified : Option String) : Bool :=
  match stored with
  | none => true
  | some (stored_etag, stored_last_modified) =>
    if truthyOpt etag && stored_etag == etag then false
    else if truthyOpt last_modified && stored_last_modified == last_modified then false
    else true

/-- `SmartCrawler._should_crawl_url`: HEAD probe, then freshness check
when a cache header is present; on probe failure or non-200, crawl. -/
def should_crawl_url (env : UrlEnv) : Bool :=
  match env.headResp with
  | none => true
  | some hr =>
    if hr.status ≠ 200 then true
    else if truthyOpt hr.etag || truthyOpt hr.last_modified then
      check_content_freshness env.storedMeta hr.etag hr.last_modified
    else true

/-- `SmartCrawler._crawl_single_url`.  Returns the `CrawlResult`, the
anti-duplication engine state after the call, and a flag recording
whether the full GET was performed. -/
def crawl_single_url (similar : String → String → Bool) (eng : EngineState)
    (env : UrlEnv) (url : String) : CrawlResult × EngineState × Bool :=
  let base : CrawlResult :=
    { url := url, success := false, status_code := 0, content := "", title := "",
      author := "", published_at := none, content_hash := "", is_duplicate := false,
      error_message := "", processing_time := env.elapsed }
  if ¬ should_crawl_url env then
    ({ base with success := true, is_duplicate := true }, eng, false)
  else
    match env.getResp with
    | .error e => ({ base with error_message := excMsg e }, eng, true)
    | .ok resp =>
      if resp.status = 200 then
        let ex := env.extracted
        if ex.content ≠ "" then
          let ch := calculate_content_hash ex.content
          let dup := is_duplicate similar eng ch url none
          ({ base with
              status_code := resp.status, content := ex.content,
              title := ex.title, author := ex.author, published_at := ex.published_at,
              content_hash := ch, is_duplicate := dup.1, success := true }, dup.2, true)
        else
          ({ base with
              status_code := resp.status,
              error_message := "Impossible d'extraire le contenu" }, eng, true)
      else
        ({ base with
            status_code := resp.status,
            error_message := "HTTP " ++ toString resp.status }, eng, true)

/-- `SmartCrawler._detect_language`; the `langdetect` call on the first
1000 characters is an oracle (`none` = the library raised). -/
def detect_language (detect : String → Option String) (content : String) : String :=
  match detect (String.mk (content.data.take 1000)) with
  | some detected => if detected ∈ supported_languages then detected else default_language
  | none => default_language

def leadsWith : List Char → List Char → Bool
  | [], _ => true
  | _ :: _, [] => false
  | a :: as2, b :: bs => a == b && leadsWith as2 bs

/-- Python `needle in hay` on strings (contiguous substring). -/
def containsSub (needle : List Char) : List Char → Bool
  | [] => needle.isEmpty
  | c :: cs => leadsWith needle (c :: cs) || containsSub needle cs

def tech_indicators : List String := ["code", "function", "class", "algorithm", "tutorial"]

/-- `SmartCrawler._calculate_quality_score`. -/
def calculate_quality_score (r : CrawlResult) : ℚ :=
  let score : ℚ := 1/2
  let score := if r.content.length > 1000 then score + 1/10 else score
  let score := if r.title ≠ "" ∧ r.title.length > 10 then score + 1/10 else score
  let score := if r.author ≠ "" then score + 1/10 else score
  let score := if r.published_at.isSome then score + 1/10 else score
  let content_lower := pyLower r.content.data
  let score := tech_indicators.foldl
    (fun acc ind => if containsSub ind.data content_lower then acc + 1/20 else acc) score
  min score 1

/-- The `sources` row fields consulted by `crawl_source`. -/
structure SourceRec where
  id : String
  url : String
  domain : String
  respect_robots_txt : Bool
deriving DecidableEq

/-- Row inserted into `articles` by `_process_crawl_result`. -/
structure ArticleRow where
  source_id : String
  title : String
  url : String
  content : String
  content_hash : String
  author : String
  published_at : Option ℚ
  language : String
  word_count : ℕ
  quality_score : ℚ
  http_status : ℤ
deriving DecidableEq

/-- Storage writes performed by the orchestrator (the effect trace). -/
inductive WriteOp where
  | updateArticle (id content content_hash title author : String) (published_at : Option ℚ)
  | insertArticle (id : String) (row : ArticleRow)
  | updateSourceStats (id : String) (pages_failed : ℕ)
deriving DecidableEq

/-- Per-URL storage environment for `_process_crawl_result`: the existing
`articles` row for the URL (`(id, content_hash)`), the id the database
assigns to a new article, and whether storage raises during the
processing (the code catches any such exception, prints it and returns
`False`). -/
structure StoreEnv where
  existing : Option (String × String)
  newId : String
  raiseFail : Bool
deriving DecidableEq

/-- `SmartCrawler._process_crawl_result`: returns whether a new article
was created, the anti-duplication state after the call, and the writes
performed. -/
def process_crawl_result (detect : String → Option String) (store : StoreEnv)
    (src : SourceRec) (r : CrawlResult) (eng : EngineState) (now : ℚ) :
    Bool × EngineState × List WriteOp :=
  if store.raiseFail then (false, eng, [])
  else
    match store.existing with
    | some (existing_id, existing_hash) =>
      if existing_hash ≠ r.content_hash then
        (false, eng, [.updateArticle existing_id r.content r.content_hash r.title
          r.author r.published_at])
      else (false, eng, [])
    | none =>
      let article : ArticleRow :=
        { source_id := src.id, title := r.title, url := r.url, content := r.content
          content_hash := r.content_hash, author := r.author
          published_at := r.published_at
          language := detect_language detect r.content
          word_count := (wordsOf r.content.data).length
          quality_score := calculate_quality_score r
          http_status := r.status_code }
      let regr := register_content_hash eng r.content_hash r.url store.newId now
      (true, regr.2, [.insertArticle store.newId article])

/-- Whole-run effect environment for `crawl_source`. -/
structure CrawlEnv where
  source : Option SourceRec
  robots_allowed : Bool
  urls : List String
  urlEnv : String → UrlEnv
  storeEnv : String → StoreEnv
  taskExn : String → Option String
  detect : String → Option String
  similar : String → String → Bool
  engInit : EngineState
  now : ℚ
  duration : ℚ

/-- One iteration of the aggregation loop in `crawl_source` (lines
153-171): an `asyncio.gather` outcome is either an exception
(`taskExn u = some msg`) or the `CrawlResult` of `_crawl_single_url`. -/
def crawl_step (env : CrawlEnv) (src : SourceRec)
    (acc : Stats × EngineState × List WriteOp) (u : String) :
    Stats × EngineState × List WriteOp :=
  let stats := acc.1
  let eng := acc.2.1
  let ws := acc.2.2
  match env.taskExn u with
  | some m =>
    ({ stats with pages_failed := stats.pages_failed + 1, errors := stats.errors ++ [m] },
     eng, ws)
  | none =>
    let cr := crawl_single_url env.similar eng (env.urlEnv u) u
    let r := cr.1
    let eng1 := cr.2.1
    let stats1 := { stats with pages_crawled := stats.pages_crawled + 1 }
    if r.success then
      if r.is_duplicate then
        ({ stats1 with duplicates_found := stats1.duplicates_found + 1 }, eng1, ws)
      else
        let pr := process_crawl_result env.detect (env.storeEnv u) src r eng1 env.now
        if pr.1 then
          ({ stats1 with
              new_articles := stats1.new_articles + 1,
              pages_processed := stats1.pages_processed + 1 }, pr.2.1, ws ++ pr.2.2)
        else (stats1, pr.2.1, ws ++ pr.2.2)
    else
      ({ stats1 with
          pages_failed := stats1.pages_failed + 1,
          errors := stats1.errors ++ [r.url ++ ": " ++ r.error_message] }, eng1, ws)

/-- The crawl loop plus the post-run source bookkeeping
(`_update_source_stats`). -/
def crawl_source_run (env : CrawlEnv) (src : SourceRec) :
    Stats × EngineState × List WriteOp :=
  let fin := env.urls.foldl (crawl_step env src) (initStats, env.engInit, [])
  (fin.1, fin.2.1, fin.2.2 ++ [.updateSourceStats src.id fin.1.pages_failed])

/-- `SmartCrawler.crawl_source`.  The body's `try/except Exception`
absorbs the `ValueError` raised for an unknown source into the error
list, so the function's observable result is always a statistics object;
the `Except` codomain records faithfully that nothing escapes to the
caller. -/
def crawl_source (source_id : String) (env : CrawlEnv) : Except String Stats :=
  match env.source with
  | none =>
    .ok { initStats with
          errors := ["Erreur générale: Source " ++ source_id ++ " non trouvée"]
          duration := env.duration }
  | some src =>
    if src.respect_robots_txt && !env.robots_allowed then
      .ok { initStats with errors := ["Bloqué par robots.txt"], duration := env.duration }
    else
      .ok { (crawl_source_run env src).1 with duration := env.duration }

/-- The wait actually returned by the code's priority cascade, stated in
terms of the three spec-side demands: the minimum-delay constraint is
consulted first, then the 1-second window (when it has a located oldest
in-window request), then the burst window. -/
def firstBindingWait (last_request : ℚ) (history : List ℚ) (now : ℚ)
    (limit : RateLimit) : ℚ :=
  if 0 < minDelayDemand last_request now limit then
    minDelayDemand last_request now limit
  else if (((cleanHistory history now).filter
        (fun t => decide (now - t ≤ 1))).length : ℚ) ≥ limit.requests_per_second
      ∧ ((cleanHistory history now).find? (fun t => decide (now - t ≤ 1))).isSome then
    windowDemand history now limit
  else burstDemand history now limit

/-- Whether the crawl of a URL fails in a given environment: either the
gathered task delivered an exception, or the `CrawlResult` is
unsuccessful (timeout, HTTP error, extraction failure).  The success flag
of `_crawl_single_url` does not depend on the anti-duplication state, so
the initial engine state is used as a canonical argument. -/
def urlFailed (env : CrawlEnv) (u : String) : Bool :=
  match env.taskExn u with
  | some _ => true
  | none => !(crawl_single_url env.similar env.engInit (env.urlEnv u) u).1.success

/-! ## Helper lemmas -/

theorem charEqOfToNat {d e : Char} (h : d.toNat = e.toNat) : d = e := by
  apply Char.ext
  have h2 : d.val.toBitVec.toNat = e.val.toBitVec.toNat := h
  exact UInt32.eq_of_toBitVec_eq (BitVec.toNat_injective h2)

theorem charOfNatValid {n : ℕ} (h : n < 55296) : (Char.ofNat n).toNat = n := by
  have hv : n.isValidChar := Or.inl h
  simp only [Char.ofNat, hv, dite_true, Char.ofNatAux, Char.toNat, UInt32.toNat]
  simp [BitVec.toNat_ofNatLt]

theorem wsIffToNat (d : Char) :
    d.isWhitespace = true ↔ d.toNat = 32 ∨ d.toNat = 9 ∨ d.toNat = 13 ∨ d.toNat = 10 := by
  constructor
  · intro h
    simp only [Char.isWhitespace, Bool.or_eq_true, decide_eq_true_eq] at h
    rcases h with ((h | h) | h) | h <;> subst h <;> simp
  · intro h
    have hd : d = ' ' ∨ d = '\t' ∨ d = '\x0d' ∨ d = '\n' := by
      rcases h with h | h | h | h
      · exact Or.inl (charEqOfToNat h)
      · exact Or.inr (Or.inl (charEqOfToNat h))
      · exact Or.inr (Or.inr (Or.inl (charEqOfToNat h)))
      · exact Or.inr (Or.inr (Or.inr (charEqOfToNat h)))
    simp [Char.isWhitespace]
    rcases hd with h | h | h | h <;> subst h <;> simp

theorem foldl_addIf_le (cl : List Char) (l : List String) (s : ℚ) :
    s ≤ l.foldl (fun acc ind => if containsSub ind.data cl then acc + 1/20 else acc) s := by
  induction l generalizing s with
  | nil => exact le_refl s
  | cons a t ih =>
    simp only [List.foldl_cons]
    refine le_trans ?_ (ih _)
    split
    · linarith
    · exact le_refl s

/-- C10: for every crawl result, the quality score computed by
`_calculate_quality_score` lies in the closed interval `[0.5, 1.0]`:
the base score is 0.5, every bonus is non-negative, and the total is
capped at 1.0. -/
theorem quality_score_bounds (r : CrawlResult) :
    (1 : ℚ)/2 ≤ calculate_quality_score r ∧ calculate_quality_score r ≤ 1 := by
  unfold calculate_quality_score
  refine ⟨?_, min_le_right _ _⟩
  refine le_min ?_ (by norm_num)
  split_ifs <;>
    exact le_trans (by norm_num) (foldl_addIf_le _ tech_indicators _)

theorem lookup_bumpDuplicate (db : List (String × HashRecord)) (f : String)
    (now : ℚ) (r : HashRecord) (h : db.lookup f = some r) :
    (bumpDuplicate db f now).lookup f =
      some { r with duplicate_count := r.duplicate_count + 1, last_seen_at := now } := by
  induction db with
  | nil => simp at h
  | cons kv t ih =>
    rcases kv with ⟨k, v⟩
    by_cases hk : k = f
    · subst hk
      simp [List.lookup] at h
      subst h
      have hb : bumpDuplicate ((k, v) :: t) k now =
          (k, { v with duplicate_count := v.duplicate_count + 1, last_seen_at := now }) ::
            bumpDuplicate t k now := by
        simp [bumpDuplicate]
      rw [hb]
      simp [List.lookup]
    · simp [List.lookup, beq_false_of_ne (Ne.symm hk)] at h
      have hb : bumpDuplicate ((k, v) :: t) f now = (k, v) :: bumpDuplicate t f now := by
        simp [bumpDuplicate, hk]
      rw [hb]
      simp only [List.lookup, beq_false_of_ne (Ne.symm hk)]
      exact ih h

/-- C8: `register_content_hash(fingerprint, url, articleId)` — if a row
with that exact fingerprint exists, the call increments its duplicate
counter (refreshing `last_seen_at`), leaves the hot cache alone and
returns false; otherwise it inserts a fresh row (zero duplicate count,
`url_hash` the SHA-256 of the URL) and warms the hot cache with the
fingerprint, returning true. -/
theorem register_content_hash_spec (s : EngineState) (f u a : String) (now : ℚ) :
    ((s.db.lookup f).isSome = false →
      register_content_hash s f u a now =
        (true, { db := s.db ++ [(f, ⟨sha256hex u, f.length, a, 0, now, now⟩)],
                 hash_cache := f :: s.hash_cache })) ∧
    (∀ r, s.db.lookup f = some r →
      (register_content_hash s f u a now).1 = false ∧
      (register_content_hash s f u a now).2.db.lookup f =
        some { r with duplicate_count := r.duplicate_count + 1, last_seen_at := now } ∧
      (register_content_hash s f u a now).2.hash_cache = s.hash_cache) := by
  constructor
  · intro h
    simp [register_content_hash, h]
  · intro r h
    have hs : (s.db.lookup f).isSome = true := by simp [h]
    refine ⟨by simp [register_content_hash, hs], ?_, by simp [register_content_hash, hs]⟩
    simp only [register_content_hash, hs, if_pos]
    exact lookup_bumpDuplicate s.db f now r h

/-- Witness for C8 at concrete inputs: a fresh fingerprint is newly
registered; a pre-existing one is not. -/
theorem register_content_hash_spec_witness :
    (register_content_hash ⟨[], []⟩ "h1" "u" "a1" 5).1 = true ∧
    (register_content_hash ⟨[("h1", ⟨"x", 2, "a1", 0, 5, 5⟩)], []⟩ "h1" "u" "a2" 9).1 = false := by
  constructor
  · have h := (register_content_hash_spec ⟨[], []⟩ "h1" "u" "a1" 5).1 (by decide)
    rw [h]
  · exact ((register_content_hash_spec ⟨[("h1", ⟨"x", 2, "a1", 0, 5, 5⟩)], []⟩ "h1" "u" "a2" 9).2
      ⟨"x", 2, "a1", 0, 5, 5⟩ (by decide)).1

/-- C7 counterexample: the claim "the next computed admission wait for
that host is strictly longer than the admission wait computed before the
report" fails as a universal statement.  Concretely: the host's first
admission (state `last_request = 0`, empty history, time 100, default
limit) waits 0; a 429 is reported; the next admission happens at time
200, long after the doubled minimum delay (2s) has elapsed and after the
lone history entry has aged out of every window, so the computed wait is
again 0, not strictly longer. -/
theorem rate_limit_429_wait_cex :
    calculate_wait_time 0 [] 100 default_limit = 0 ∧
    calculate_wait_time 100 [100] 200
      (handle_response ⟨default_limit, 0⟩ 429 (1/4)).limit = 0 ∧
    ¬ (calculate_wait_time 100 [100] 200
         (handle_response ⟨default_limit, 0⟩ 429 (1/4)).limit >
       calculate_wait_time 0 [] 100 default_limit) := by
  have hr : (handle_response ⟨default_limit, 0⟩ 429 (1/4)).limit =
      ⟨1/2, 2, 2⟩ := by
    norm_num [handle_response, handle_rate_limit_exceeded, default_limit, max_def, min_def]
  have h1 : calculate_wait_time 0 [] 100 default_limit = 0 := by
    norm_num [calculate_wait_time, cleanHistory, default_limit]
  have h2 : calculate_wait_time 100 [100] 200
      (handle_response ⟨default_limit, 0⟩ 429 (1/4)).limit = 0 := by
    rw [hr]
    norm_num [calculate_wait_time, cleanHistory, List.dropWhile, List.filter]
  exact ⟨h1, h2, by rw [h1, h2]; norm_num⟩

/-- C7 (amended): after `report(host, 429, _)` the allowed rate becomes
`max(previous/2, 0.1)` (hence is at most half the previous value or the
0.1 floor), the burst allowance shrinks by one with floor 1, and the
minimum delay doubles with cap 10s; and the next computed admission wait
is strictly longer than the pre-report wait provided the pre-report wait
was zero (as in the first-request scenario) and the next admission is
computed within the new (doubled) minimum delay of the host's last
recorded request.  Without that proviso the next wait can again be zero
(see the counterexample). -/
theorem rate_limit_429_penalty (st : HostState) (rt : ℚ)
    (last now wbefore : ℚ) (history : List ℚ)
    (hbefore : wbefore = 0)
    (hnext : now - last < (handle_response st 429 rt).limit.delay_between_requests) :
    (handle_response st 429 rt).limit.requests_per_second
        = max (st.limit.requests_per_second * (1/2)) (1/10) ∧
    (handle_response st 429 rt).limit.burst_size = max (st.limit.burst_size - 1) 1 ∧
    (handle_response st 429 rt).limit.delay_between_requests
        = min (st.limit.delay_between_requests * 2) 10 ∧
    calculate_wait_time last history now (handle_response st 429 rt).limit > wbefore := by
  have hr : handle_response st 429 rt = handle_rate_limit_exceeded st := by
    simp [handle_response]
  rw [hr] at hnext ⊢
  refine ⟨rfl, rfl, rfl, ?_⟩
  subst hbefore
  unfold calculate_wait_time
  rw [if_pos hnext]
  simp only [handle_rate_limit_exceeded] at hnext ⊢
  linarith

/-- Witness for C7: a 429 on the very first request to a host; the first
wait is 0, the second admission happens one second later, inside the
doubled minimum delay, and the theorem yields the penalty equations and a
strictly positive second wait. -/
theorem rate_limit_429_penalty_witness :
    calculate_wait_time 100 [100] 101
      (handle_response ⟨default_limit, 0⟩ 429 (1/4)).limit > 0 :=
  (rate_limit_429_penalty ⟨default_limit, 0⟩ (1/4) 100 101 0 [100] rfl
    (by norm_num [handle_response, handle_rate_limit_exceeded, default_limit, min_def])).2.2.2

theorem handle_response_rate_le_two (st : HostState) (c : ℤ) (rt : ℚ)
    (h : st.limit.requests_per_second ≤ 2) :
    (handle_response st c rt).limit.requests_per_second ≤ 2 := by
  simp only [handle_response, handle_rate_limit_exceeded, handle_server_error,
    handle_successful_request]
  split_ifs <;>
    first
      | exact h
      | exact max_le (by linarith) (by norm_num)
      | exact le_trans (min_le_right _ _) (by norm_num)

/-- C6 counterexample: the claim "the allowed rate increases only after a
200 response ..." fails.  Reachable from the default state by three 429s
followed by three 5xx responses: after the 429s the rate is 1/8 and the
error counter 3; the first two 5xx only raise the counter to 5; the third
5xx takes the counter past the threshold and applies the 5xx penalty
`max(rate * 0.8, 0.2)`, whose 0.2 floor RAISES the rate from 1/8 to 1/5,
even though the report was a server error, not a 200. -/
theorem rate_increase_on_server_error_cex :
    handle_chain ⟨default_limit, 0⟩ [(429, 0), (429, 0), (429, 0), (500, 0), (500, 0)] =
      ⟨⟨1/8, 1, 8⟩, 5⟩ ∧
    (handle_response ⟨⟨1/8, 1, 8⟩, 5⟩ 500 0).limit.requests_per_second = 1/5 ∧
    ((1 : ℚ)/8 < 1/5) ∧ ((500 : ℤ) ≠ 200) := by
  refine ⟨?_, ?_, by norm_num, by norm_num⟩
  · have e1 : handle_response ⟨default_limit, 0⟩ 429 0 = ⟨⟨1/2, 2, 2⟩, 1⟩ := by
      norm_num [handle_response, handle_rate_limit_exceeded, default_limit, max_def, min_def]
    have e2 : handle_response ⟨⟨1/2, 2, 2⟩, 1⟩ 429 0 = ⟨⟨1/4, 1, 4⟩, 2⟩ := by
      norm_num [handle_response, handle_rate_limit_exceeded, max_def, min_def]
    have e3 : handle_response ⟨⟨1/4, 1, 4⟩, 2⟩ 429 0 = ⟨⟨1/8, 1, 8⟩, 3⟩ := by
      norm_num [handle_response, handle_rate_limit_exceeded, max_def, min_def]
    have e4 : handle_response ⟨⟨1/8, 1, 8⟩, 3⟩ 500 0 = ⟨⟨1/8, 1, 8⟩, 4⟩ := by
      norm_num [handle_response, handle_server_error]
    have e5 : handle_response ⟨⟨1/8, 1, 8⟩, 4⟩ 500 0 = ⟨⟨1/8, 1, 8⟩, 5⟩ := by
      norm_num [handle_response, handle_server_error]
    simp only [handle_chain, List.foldl_cons, List.foldl_nil]
    rw [e1, e2, e3, e4, e5]
  · norm_num [handle_response, handle_server_error, max_def, min_def]

/-- C6 (amended): over any sequence of `report` calls the allowed rate
never exceeds the 2 req/s ceiling (once at or below it); the rate
decreases only on a 429 or a 5xx report; and it increases only on a 200
report with response time under one second and a zero error counter
after the report's own decrement — or, the correction the code forces,
on a 5xx report whose 0.2 req/s penalty floor exceeds the current rate
(possible after repeated 429s, see the counterexample). -/
theorem rate_ceiling_and_monotonicity :
    (∀ (st : HostState) (reports : List (ℤ × ℚ)),
        st.limit.requests_per_second ≤ 2 →
        (handle_chain st reports).limit.requests_per_second ≤ 2) ∧
    (∀ (st : HostState) (c : ℤ) (rt : ℚ),
        0 ≤ st.limit.requests_per_second →
        (handle_response st c rt).limit.requests_per_second <
          st.limit.requests_per_second →
        c = 429 ∨ 500 ≤ c) ∧
    (∀ (st : HostState) (c : ℤ) (rt : ℚ),
        (1 : ℚ)/10 ≤ st.limit.requests_per_second →
        st.limit.requests_per_second <
          (handle_response st c rt).limit.requests_per_second →
        (c = 200 ∧ rt < 1 ∧ (handle_response st c rt).error_count = 0) ∨
        (500 ≤ c ∧ st.limit.requests_per_second < 1/5 ∧
          (handle_response st c rt).limit.requests_per_second = 1/5)) := by
  refine ⟨?_, ?_, ?_⟩
  · intro st reports h
    induction reports generalizing st with
    | nil => exact h
    | cons p t ih =>
      simp only [handle_chain, List.foldl_cons] at ih ⊢
      exact ih _ (handle_response_rate_le_two st p.1 p.2 h)
  · intro st c rt h0 hdec
    by_cases h429 : c = 429
    · exact Or.inl h429
    by_cases h5 : 500 ≤ c
    · exact Or.inr h5
    exfalso
    by_cases h200 : c = 200
    · subst h200
      rw [handle_response] at hdec
      rw [if_neg h429, if_neg h5, if_pos rfl] at hdec
      rw [handle_successful_request] at hdec
      split_ifs at hdec with hc hg
      · have hle : st.limit.requests_per_second ≤
            min (st.limit.requests_per_second * (11/10)) 2 :=
          le_min (by linarith) (by linarith)
        simp only at hdec
        linarith
      · exact absurd hdec (lt_irrefl _)
      · exact absurd hdec (lt_irrefl _)
    · rw [handle_response, if_neg h429, if_neg h5, if_neg h200] at hdec
      exact absurd hdec (lt_irrefl _)
  · intro st c rt h10 hinc
    by_cases h429 : c = 429
    · exfalso
      subst h429
      rw [handle_response, if_pos rfl, handle_rate_limit_exceeded] at hinc
      have hle : max (st.limit.requests_per_second * (1/2)) (1/10) ≤
          st.limit.requests_per_second := max_le (by linarith) h10
      simp only at hinc
      linarith
    by_cases h5 : 500 ≤ c
    · right
      refine ⟨h5, ?_⟩
      rw [handle_response, if_neg h429, if_pos h5, handle_server_error] at hinc ⊢
      split_ifs at hinc ⊢ with he
      · have h45 : st.limit.requests_per_second * (4/5) ≤ st.limit.requests_per_second := by
          linarith
        simp only at hinc ⊢
        have hr5 : st.limit.requests_per_second < 1/5 := by
          by_contra hge
          push_neg at hge
          have hle : max (st.limit.requests_per_second * (4/5)) (1/5) ≤
              st.limit.requests_per_second := max_le h45 hge
          linarith
        exact ⟨hr5, max_eq_right (by linarith)⟩
      · exact absurd hinc (lt_irrefl _)
    by_cases h200 : c = 200
    · left
      subst h200
      refine ⟨rfl, ?_⟩
      rw [handle_response, if_neg h429, if_neg h5, if_pos rfl,
        handle_successful_request] at hinc ⊢
      split_ifs at hinc ⊢ with hc hg
      · exact ⟨hc.1, hc.2⟩
      · exact absurd hinc (lt_irrefl _)
      · exact absurd hinc (lt_irrefl _)
    · exfalso
      rw [handle_response, if_neg h429, if_neg h5, if_neg h200] at hinc
      exact absurd hinc (lt_irrefl _)

/-- Witness for C6 at concrete inputs: the ceiling is preserved over a
concrete report sequence, and a concrete 200 report that raises the rate
satisfies the 200/fast/zero-errors characterization. -/
theorem rate_ceiling_and_monotonicity_witness :
    (handle_chain ⟨default_limit, 0⟩ [(200, 1/2), (200, 1/2)]).limit.requests_per_second ≤ 2 ∧
    (((200 : ℤ) = 200 ∧ (1 : ℚ)/2 < 1 ∧
        (handle_response ⟨default_limit, 1⟩ 200 (1/2)).error_count = 0) ∨
      (500 ≤ (200 : ℤ) ∧ default_limit.requests_per_second < 1/5 ∧
        (handle_response ⟨default_limit, 1⟩ 200 (1/2)).limit.requests_per_second = 1/5)) := by
  constructor
  · exact rate_ceiling_and_monotonicity.1 ⟨default_limit, 0⟩ [(200, 1/2), (200, 1/2)]
      (by norm_num [default_limit])
  · exact rate_ceiling_and_monotonicity.2.2 ⟨default_limit, 1⟩ 200 (1/2)
      (by norm_num [default_limit])
      (by norm_num [handle_response, handle_successful_request, default_limit, min_def])

/-- C2 counterexample: the computed wait is NOT always the longest of the
three demands.  Reachable state: configure the host at 1 req/s, burst 5,
minimum delay 0.7s; a first admission at time 10 waits 0 and records
timestamp 10; at time 10.4 the code's minimum-delay branch returns
0.7 - 0.4 = 0.3 and exits, although the 1-second-window constraint
demands 1 - 0.4 = 0.6. -/
theorem calculate_wait_time_not_max_cex :
    calculate_wait_time 10 [10] (52/5) ⟨1, 5, 7/10⟩ = 3/10 ∧
    specMaxWait 10 [10] (52/5) ⟨1, 5, 7/10⟩ = 3/5 ∧
    ((3 : ℚ)/10 ≠ 3/5) := by
  refine ⟨?_, ?_, by norm_num⟩
  · norm_num [calculate_wait_time]
  · norm_num [specMaxWait, minDelayDemand, windowDemand, burstDemand, cleanHistory,
      List.dropWhile, List.filter, List.find?, max_def]

theorem burst_fallback_eq (h : List ℚ) (now : ℚ) (limit : RateLimit) :
    (if (h.length : ℤ) ≥ limit.burst_size then
       if (((h.filter (fun t => decide (now - t ≤ 10))).length : ℤ) ≥ limit.burst_size) then
         10 / (limit.burst_size : ℚ)
       else 0
     else 0) =
    (if (((h.filter (fun t => decide (now - t ≤ 10))).length : ℤ) ≥ limit.burst_size) then
       10 / (limit.burst_size : ℚ)
     else 0) := by
  by_cases hc : (((h.filter (fun t => decide (now - t ≤ 10))).length : ℤ) ≥ limit.burst_size)
  · have hlen : (h.length : ℤ) ≥ limit.burst_size := by
      have := List.length_filter_le (fun t => decide (now - t ≤ 10)) h
      omega
    rw [if_pos hlen]
  · rw [if_neg hc]
    exact ite_self 0

theorem windowDemand_of_count (history : List ℚ) (now : ℚ) (limit : RateLimit)
    (hw : (((cleanHistory history now).filter (fun t => decide (now - t ≤ 1))).length : ℚ) ≥
      limit.requests_per_second) :
    windowDemand history now limit =
      (match (cleanHistory history now).find? (fun t => decide (now - t ≤ 1)) with
       | some oldest => 1 - (now - oldest)
       | none => 0) := by
  unfold windowDemand
  rw [if_pos hw]

/-- C2 (amended): the code checks the three admission constraints in a
fixed priority order — minimum delay since the last request, then the
trailing 1-second window (when a nonzero oldest in-window timestamp is
found), then the 10-second burst window — and returns the demand of the
FIRST binding constraint, which is always at most, but not always equal
to, the longest of the three demands (see the counterexample).  The
hypothesis that recorded timestamps are positive reflects `time.time()`
and discharges the code's Python-truthiness test on the oldest in-window
timestamp. -/
theorem calculate_wait_time_priority (last_request : ℚ) (history : List ℚ) (now : ℚ)
    (limit : RateLimit) (hpos : ∀ t ∈ history, 0 < t) :
    calculate_wait_time last_request history now limit =
      firstBindingWait last_request history now limit ∧
    calculate_wait_time last_request history now limit ≤
      specMaxWait last_request history now limit := by
  have hkey : calculate_wait_time last_request history now limit =
      firstBindingWait last_request history now limit := by
    by_cases hmd : now - last_request < limit.delay_between_requests
    · have hd1 : minDelayDemand last_request now limit =
          limit.delay_between_requests - (now - last_request) := by
        unfold minDelayDemand
        exact max_eq_left (by linarith)
      have hL : calculate_wait_time last_request history now limit =
          limit.delay_between_requests - (now - last_request) := by
        unfold calculate_wait_time
        rw [if_pos hmd]
      have hR : firstBindingWait last_request history now limit =
          limit.delay_between_requests - (now - last_request) := by
        unfold firstBindingWait
        rw [hd1, if_pos (by linarith)]
      rw [hL, hR]
    · have hd1 : ¬ (0 < minDelayDemand last_request now limit) := by
        unfold minDelayDemand
        rw [max_eq_right (by linarith)]
        exact lt_irrefl 0
      by_cases hw : (((cleanHistory history now).filter
          (fun t => decide (now - t ≤ 1))).length : ℚ) ≥ limit.requests_per_second
      · cases hfind : (cleanHistory history now).find? (fun t => decide (now - t ≤ 1)) with
        | some o =>
          have ho : 0 < o := by
            have hmem : o ∈ cleanHistory history now := List.mem_of_find?_eq_some hfind
            have : o ∈ history := (List.dropWhile_sublist _).mem hmem
            exact hpos o this
          have hL : calculate_wait_time last_request history now limit = 1 - (now - o) := by
            unfold calculate_wait_time
            rw [if_neg hmd]
            simp only [hfind, if_pos hw]
            rw [if_pos (by exact ne_of_gt ho)]
          have hR : firstBindingWait last_request history now limit = 1 - (now - o) := by
            unfold firstBindingWait
            rw [if_neg hd1, if_pos ⟨hw, by rw [hfind]; rfl⟩,
              windowDemand_of_count history now limit hw, hfind]
          rw [hL, hR]
        | none =>
          have hL : calculate_wait_time last_request history now limit =
              burstDemand history now limit := by
            unfold calculate_wait_time burstDemand
            rw [if_neg hmd]
            simp only [hfind, if_pos hw]
            exact burst_fallback_eq _ now limit
          have hR : firstBindingWait last_request history now limit =
              burstDemand history now limit := by
            unfold firstBindingWait
            rw [if_neg hd1, if_neg (by rw [hfind]; simp)]
          rw [hL, hR]
      · have hL : calculate_wait_time last_request history now limit =
            burstDemand history now limit := by
          unfold calculate_wait_time burstDemand
          rw [if_neg hmd, if_neg hw]
          exact burst_fallback_eq _ now limit
        have hR : firstBindingWait last_request history now limit =
            burstDemand history now limit := by
          unfold firstBindingWait
          rw [if_neg hd1, if_neg (by intro hc; exact hw hc.1)]
        rw [hL, hR]
  refine ⟨hkey, ?_⟩
  rw [hkey]
  unfold firstBindingWait specMaxWait
  split_ifs with h1 h2
  · exact le_max_left _ _
  · exact le_trans
      (le_max_left (windowDemand history now limit) (burstDemand history now limit))
      (le_max_right (minDelayDemand last_request now limit)
        (max (windowDemand history now limit) (burstDemand history now limit)))
  · exact le_trans
      (le_max_right (windowDemand history now limit) (burstDemand history now limit))
      (le_max_right (minDelayDemand last_request now limit)
        (max (windowDemand history now limit) (burstDemand history now limit)))

/-- Witness for C2 at the counterexample state: the computed wait equals
the first-binding demand and is bounded by the spec's maximum demand. -/
theorem calculate_wait_time_priority_witness :
    calculate_wait_time 10 [10] (52/5) ⟨1, 5, 7/10⟩ =
      firstBindingWait 10 [10] (52/5) ⟨1, 5, 7/10⟩ ∧
    calculate_wait_time 10 [10] (52/5) ⟨1, 5, 7/10⟩ ≤
      specMaxWait 10 [10] (52/5) ⟨1, 5, 7/10⟩ :=
  calculate_wait_time_priority 10 [10] (52/5) ⟨1, 5, 7/10⟩
    (by intro t ht; rw [List.mem_singleton] at ht; subst ht; norm_num)

theorem check_freshness_false (se slm : Option String) (etag lm : Option String)
    (hmatch : (truthyOpt etag = true ∧ se = etag) ∨
              (truthyOpt lm = true ∧ slm = lm)) :
    check_content_freshness (some (se, slm)) etag lm = false := by
  rcases hmatch with ⟨ht, heq⟩ | ⟨ht, heq⟩
  · subst heq
    simp [check_content_freshness, ht]
  · subst heq
    by_cases h1 : (truthyOpt etag && se == etag) = true
    · simp [check_content_freshness, h1]
    · simp [check_content_freshness, h1, ht]

/-- C4: when the freshly probed ETag (or Last-Modified) of a URL equals
the value stored in the articles table for that URL, `_crawl_single_url`
performs no full GET (third component `false`), leaves the
anti-duplication state untouched, performs no storage write, and returns
the early `CrawlResult` that marks the outcome as skipped-as-unchanged
(the code's `success = true, is_duplicate = true` marking); the
aggregation step of `crawl_source` then counts it toward `pages_crawled`
(pages checked) and `duplicates_found`, but not toward new, processed or
updated articles, and appends no write operation. -/
theorem freshness_short_circuit (similar : String → String → Bool)
    (eng : EngineState) (env : UrlEnv) (url : String)
    (hr : HeadResp) (se slm : Option String)
    (hhead : env.headResp = some hr) (hst : hr.status = 200)
    (hstored : env.storedMeta = some (se, slm))
    (hmatch : (truthyOpt hr.etag = true ∧ se = hr.etag) ∨
              (truthyOpt hr.last_modified = true ∧ slm = hr.last_modified)) :
    crawl_single_url similar eng env url =
      ({ url := url, success := true, status_code := 0, content := "", title := "",
         author := "", published_at := none, content_hash := "", is_duplicate := true,
         error_message := "", processing_time := env.elapsed }, eng, false) ∧
    (∀ (cenv : CrawlEnv) (src : SourceRec) (stats : Stats) (eng2 : EngineState)
        (ws : List WriteOp),
      cenv.taskExn url = none → cenv.urlEnv url = env →
      crawl_step cenv src (stats, eng2, ws) url =
        ({ stats with
            pages_crawled := stats.pages_crawled + 1,
            duplicates_found := stats.duplicates_found + 1 }, eng2, ws)) := by
  have htr : (truthyOpt hr.etag || truthyOpt hr.last_modified) = true := by
    rcases hmatch with ⟨ht, _⟩ | ⟨ht, _⟩ <;> simp [ht]
  have hskip : should_crawl_url env = false := by
    have hcf := check_freshness_false se slm hr.etag hr.last_modified hmatch
    simp [should_crawl_url, hhead, hst, htr, hstored, hcf]
  have hone : ∀ (sim : String → String → Bool) (e : EngineState),
      crawl_single_url sim e env url =
        ({ url := url, success := true, status_code := 0, content := "", title := "",
           author := "", published_at := none, content_hash := "", is_duplicate := true,
           error_message := "", processing_time := env.elapsed }, e, false) := by
    intro sim e
    simp [crawl_single_url, hskip]
  refine ⟨hone similar eng, ?_⟩
  intro cenv src stats eng2 ws hexn hurl
  simp [crawl_step, hexn, hurl, hone cenv.similar eng2]

/-- Witness for C4: a URL whose HEAD probe returns 200 with ETag "e1",
with "e1" also stored for the URL; the crawl step only bumps
`pages_crawled` and `duplicates_found` and performs no GET. -/
theorem freshness_short_circuit_witness :
    crawl_single_url (fun _ _ => false) ⟨[], []⟩
      ⟨some ⟨200, some "e1", none⟩, some (some "e1", none),
        Except.ok ⟨200, "body"⟩, ⟨"c", "t", "a", none⟩, 0⟩ "https://h/p" =
      ({ url := "https://h/p", success := true, status_code := 0, content := "",
         title := "", author := "", published_at := none, content_hash := "",
         is_duplicate := true, error_message := "", processing_time := 0 },
       ⟨[], []⟩, false) :=
  (freshness_short_circuit (fun _ _ => false) ⟨[], []⟩
    ⟨some ⟨200, some "e1", none⟩, some (some "e1", none),
      Except.ok ⟨200, "body"⟩, ⟨"c", "t", "a", none⟩, 0⟩ "https://h/p"
    ⟨200, some "e1", none⟩ (some "e1") none rfl rfl rfl
    (Or.inl ⟨by decide, rfl⟩)).1

theorem crawl_step_counts (env : CrawlEnv) (src : SourceRec)
    (acc : Stats × EngineState × List WriteOp) (u : String) :
    (crawl_step env src acc u).1.updated_articles = acc.1.updated_articles ∧
    ((crawl_step env src acc u).1.pages_processed = acc.1.pages_processed ∧
      (crawl_step env src acc u).1.new_articles = acc.1.new_articles ∨
     (crawl_step env src acc u).1.pages_processed = acc.1.pages_processed + 1 ∧
      (crawl_step env src acc u).1.new_articles = acc.1.new_articles + 1) := by
  unfold crawl_step
  cases htask : env.taskExn u with
  | some m => simp
  | none =>
    dsimp only
    split_ifs <;> simp

theorem crawl_foldl_counts (env : CrawlEnv) (src : SourceRec) (urls : List String)
    (acc : Stats × EngineState × List WriteOp)
    (h1 : acc.1.pages_processed = acc.1.new_articles)
    (h2 : acc.1.updated_articles = 0) :
    (urls.foldl (crawl_step env src) acc).1.pages_processed =
      (urls.foldl (crawl_step env src) acc).1.new_articles ∧
    (urls.foldl (crawl_step env src) acc).1.updated_articles = 0 := by
  induction urls generalizing acc with
  | nil => exact ⟨h1, h2⟩
  | cons u t ih =>
    simp only [List.foldl_cons]
    have hs := crawl_step_counts env src acc u
    refine ih (crawl_step env src acc u) ?_ (by rw [hs.1, h2])
    rcases hs.2 with ⟨hp, hn⟩ | ⟨hp, hn⟩
    · rw [hp, hn, h1]
    · rw [hp, hn, h1]

/-- C9: every `crawl_source` run returns statistics with
`pages_processed = new_articles` and `updated_articles = 0`: the two
counters are only ever incremented together (when `_process_crawl_result`
reports a newly created article), and an in-place update of an existing
article returns `False` from `_process_crawl_result`, incrementing
nothing — the `updated_articles` counter is dead. -/
theorem crawl_source_counter_invariant (source_id : String) (env : CrawlEnv) (s : Stats)
    (h : crawl_source source_id env = Except.ok s) :
    s.pages_processed = s.new_articles ∧ s.updated_articles = 0 := by
  unfold crawl_source at h
  cases hsrc : env.source with
  | none =>
    rw [hsrc] at h
    simp only [Except.ok.injEq] at h
    subst h
    exact ⟨rfl, rfl⟩
  | some src =>
    rw [hsrc] at h
    dsimp only at h
    split_ifs at h with hrob
    · simp only [Except.ok.injEq] at h
      subst h
      exact ⟨rfl, rfl⟩
    · simp only [Except.ok.injEq] at h
      subst h
      have := crawl_foldl_counts env src env.urls (initStats, env.engInit, []) rfl rfl
      simpa [crawl_source_run] using this

/-- Witness for C9 at a concrete environment (unknown source id): the
returned statistics satisfy the invariant. -/
theorem crawl_source_counter_invariant_witness :
    ({ pages_crawled := 0, pages_processed := 0, pages_failed := 0, new_articles := 0,
       updated_articles := 0, duplicates_found := 0,
       errors := ["Erreur générale: Source s1 non trouvée"], duration := 0 } :
      Stats).pages_processed =
      ({ pages_crawled := 0, pages_processed := 0, pages_failed := 0, new_articles := 0,
         updated_articles := 0, duplicates_found := 0,
         errors := ["Erreur générale: Source s1 non trouvée"], duration := 0 } :
        Stats).new_articles ∧
    ({ pages_crawled := 0, pages_processed := 0, pages_failed := 0, new_articles := 0,
       updated_articles := 0, duplicates_found := 0,
       errors := ["Erreur générale: Source s1 non trouvée"], duration := 0 } :
      Stats).updated_articles = 0 :=
  crawl_source_counter_invariant "s1"
    ⟨none, true, [], fun _ => ⟨none, none, Except.error .timeout, ⟨"", "", "", none⟩, 0⟩,
      fun _ => ⟨none, "aid", false⟩, fun _ => none, fun _ => none, fun _ _ => false,
      ⟨[], []⟩, 0, 0⟩ _ rfl

theorem is_duplicate_db (similar : String → String → Bool) (s : EngineState)
    (h u : String) (c : Option String) :
    (is_duplicate similar s h u c).2.db = s.db := by
  unfold is_duplicate
  split_ifs
  · rfl
  · rfl
  · cases c with
    | some cc => dsimp only; split_ifs <;> rfl
    | none => rfl

theorem lookup_isSome_bump (db : List (String × HashRecord)) (f g : String) (now : ℚ) :
    (((bumpDuplicate db f now).lookup g).isSome) = ((db.lookup g).isSome) := by
  induction db with
  | nil => rfl
  | cons kv t ih =>
    rcases kv with ⟨k, v⟩
    by_cases hk : k = f
    · have hb : bumpDuplicate ((k, v) :: t) f now =
          (k, { v with duplicate_count := v.duplicate_count + 1, last_seen_at := now }) ::
            bumpDuplicate t f now := by
        simp [bumpDuplicate, hk]
      rw [hb]
      cases hgk : (g == k) <;> simp [List.lookup, hgk, ih]
    · have hb : bumpDuplicate ((k, v) :: t) f now = (k, v) :: bumpDuplicate t f now := by
        simp [bumpDuplicate, hk]
      rw [hb]
      cases hgk : (g == k) <;> simp [List.lookup, hgk, ih]

theorem lookup_isSome_append (db ex : List (String × HashRecord)) (g : String)
    (h : (db.lookup g).isSome) : (((db ++ ex).lookup g).isSome) := by
  induction db with
  | nil => simp at h
  | cons kv t ih =>
    rcases kv with ⟨k, v⟩
    cases hgk : (g == k) with
    | true => simp only [List.cons_append, List.lookup, hgk]; rfl
    | false =>
      simp only [List.lookup, hgk] at h
      simp only [List.cons_append, List.lookup, hgk]
      exact ih h

theorem lookup_append_self (db : List (String × HashRecord)) (f : String)
    (r : HashRecord) (h : (db.lookup f).isSome = false) :
    (db ++ [(f, r)]).lookup f = some r := by
  induction db with
  | nil => simp [List.lookup]
  | cons kv t ih =>
    rcases kv with ⟨k, v⟩
    cases hgk : (f == k) with
    | true => simp only [List.lookup, hgk] at h; simp at h
    | false =>
      simp only [List.lookup, hgk] at h
      simp only [List.cons_append, List.lookup, hgk]
      exact ih h

theorem register_mem (s : EngineState) (f u a : String) (now : ℚ) :
    (((register_content_hash s f u a now).2).db.lookup f).isSome := by
  unfold register_content_hash
  by_cases hx : (s.db.lookup f).isSome
  · rw [if_pos hx]
    rcases Option.isSome_iff_exists.mp hx with ⟨r, hr⟩
    simp [lookup_bumpDuplicate s.db f now r hr]
  · rw [if_neg hx]
    simp only
    rw [lookup_append_self s.db f _ (Bool.eq_false_iff.mpr hx)]
    rfl

theorem register_preserves (s : EngineState) (f u a : String) (now : ℚ) (g : String)
    (h : ((s.db.lookup g).isSome)) :
    ((((register_content_hash s f u a now).2).db.lookup g).isSome) := by
  unfold register_content_hash
  by_cases hx : (s.db.lookup f).isSome
  · rw [if_pos hx]
    simpa [lookup_isSome_bump] using h
  · rw [if_neg hx]
    exact lookup_isSome_append s.db _ g h

theorem applyOp_preserves (similar : String → String → Bool) (s : EngineState)
    (op : EngOp) (g : String) (hop : isCleanOp op = false)
    (h : ((s.db.lookup g).isSome)) :
    (((applyOp similar s op).db.lookup g).isSome) := by
  cases op with
  | isDup hh uu cc => simpa [applyOp, is_duplicate_db] using h
  | reg hh uu aa tt => exact register_preserves s hh uu aa tt g h
  | clean d t => simp [isCleanOp] at hop

theorem applyOps_preserves (similar : String → String → Bool) (ops : List EngOp)
    (s : EngineState) (g : String) (hops : ∀ op ∈ ops, isCleanOp op = false)
    (h : ((s.db.lookup g).isSome)) :
    (((applyOps similar s ops).db.lookup g).isSome) := by
  induction ops generalizing s with
  | nil => exact h
  | cons op t ih =>
    simp only [applyOps, List.foldl_cons]
    exact ih (applyOp similar s op)
      (fun o ho => hops o (List.mem_cons_of_mem op ho))
      (applyOp_preserves similar s op g (hops op (List.mem_cons_self op t)) h)

theorem is_duplicate_true_of_mem (similar : String → String → Bool) (s : EngineState)
    (h u : String) (c : Option String) (hm : ((s.db.lookup h).isSome)) :
    (is_duplicate similar s h u c).1 = true := by
  unfold is_duplicate
  by_cases hc : s.hash_cache.contains h
  · rw [if_pos hc]
  · rw [if_neg hc, if_pos (by simpa [check_exact_duplicate] using hm)]

theorem lookup_filter_none (db : List (String × HashRecord))
    (p : String × HashRecord → Bool) (g : String) (r : HashRecord)
    (hl : db.lookup g = some r) (hn : (db.filter p).lookup g = none) :
    p (g, r) = false := by
  induction db with
  | nil => simp at hl
  | cons kv t ih =>
    rcases kv with ⟨k, v⟩
    cases hgk : (g == k) with
    | true =>
      have hg : g = k := eq_of_beq hgk
      simp [List.lookup, hgk] at hl
      subst hl
      subst hg
      cases hp : p (g, v) with
      | true => simp [List.filter, hp, List.lookup] at hn
      | false => rfl
    | false =>
      simp [List.lookup, hgk] at hl
      cases hp : p (k, v) with
      | true =>
        rw [List.filter_cons_of_pos hp] at hn
        simp only [List.lookup, hgk] at hn
        exact ih hl hn
      | false =>
        rw [List.filter_cons_of_neg (by simp [hp])] at hn
        exact ih hl hn

/-- C5: (monotonicity) once `register_content_hash f ...` succeeds, any
sequence of further engine operations that contains no cleanup leaves the
fingerprint in the table, and `is_duplicate f` answers true; (cleanup
safety) `cleanup_old_hashes` removes a looked-up record only when it is
older than the age threshold AND its duplicate counter is zero — a record
with duplicate observations is never removed. -/
theorem duplicate_monotonicity_and_cleanup_safety :
    (∀ (similar : String → String → Bool) (s : EngineState)
        (f u a : String) (now : ℚ) (ops : List EngOp) (u2 : String) (c2 : Option String),
      (register_content_hash s f u a now).1 = true →
      (∀ op ∈ ops, isCleanOp op = false) →
      (is_duplicate similar
          (applyOps similar (register_content_hash s f u a now).2 ops) f u2 c2).1 = true) ∧
    (∀ (s : EngineState) (d : ℕ) (now : ℚ) (g : String) (r : HashRecord),
      s.db.lookup g = some r →
      (cleanup_old_hashes s d now).2.db.lookup g = none →
      r.first_seen_at < now - (d : ℚ) * 86400 ∧ r.duplicate_count = 0) := by
  constructor
  · intro similar s f u a now ops u2 c2 _hreg hops
    exact is_duplicate_true_of_mem similar _ f u2 c2
      (applyOps_preserves similar ops _ f hops (register_mem s f u a now))
  · intro s d now g r hl hn
    have hp := lookup_filter_none s.db _ g r hl hn
    simpa [not_and, not_lt] using hp

/-- Witness for C5: register "h1" in the empty state, run a cleanup-free
operation sequence (another registration and a lookup), and observe that
`is_duplicate` still answers true for "h1". -/
theorem duplicate_monotonicity_witness :
    (is_duplicate (fun _ _ => false)
        (applyOps (fun _ _ => false)
          (register_content_hash ⟨[], []⟩ "h1" "u1" "a1" 0).2
          [EngOp.reg "h2" "u2" "a2" 1, EngOp.isDup "h1" "u3" none])
        "h1" "u4" none).1 = true :=
  duplicate_monotonicity_and_cleanup_safety.1 (fun _ _ => false) ⟨[], []⟩
    "h1" "u1" "a1" 0 [EngOp.reg "h2" "u2" "a2" 1, EngOp.isDup "h1" "u3" none] "u4" none
    (by decide)
    (by intro op hop
        rcases List.mem_cons.mp hop with h | h
        · subst h; rfl
        · rcases List.mem_cons.mp h with h2 | h2
          · subst h2; rfl
          · simp at h2)

theorem crawl_single_url_success_indep (sim1 sim2 : String → String → Bool)
    (e1 e2 : EngineState) (env : UrlEnv) (url : String) :
    (crawl_single_url sim1 e1 env url).1.success =
      (crawl_single_url sim2 e2 env url).1.success ∧
    (crawl_single_url sim1 e1 env url).1.error_message =
      (crawl_single_url sim2 e2 env url).1.error_message := by
  unfold crawl_single_url
  cases hsc : should_crawl_url env
  · simp
  · cases env.getResp with
    | error e => simp
    | ok resp =>
      dsimp only
      split_ifs <;> simp

theorem crawl_step_failed (env : CrawlEnv) (src : SourceRec)
    (acc : Stats × EngineState × List WriteOp) (u : String) :
    (crawl_step env src acc u).1.pages_failed =
      acc.1.pages_failed + (if urlFailed env u then 1 else 0) ∧
    (crawl_step env src acc u).1.errors.length =
      acc.1.errors.length + (if urlFailed env u then 1 else 0) := by
  unfold crawl_step urlFailed
  cases htask : env.taskExn u with
  | some m => simp
  | none =>
    dsimp only
    have hind := crawl_single_url_success_indep env.similar env.similar acc.2.1 env.engInit
      (env.urlEnv u) u
    rw [← hind.1]
    cases hs : (crawl_single_url env.similar acc.2.1 (env.urlEnv u) u).1.success
    · simp [hs]
    · simp only [hs, if_true, Bool.not_true, if_false]
      split_ifs <;> simp_all

theorem crawl_foldl_failed (env : CrawlEnv) (src : SourceRec) (urls : List String)
    (acc : Stats × EngineState × List WriteOp) :
    (urls.foldl (crawl_step env src) acc).1.pages_failed =
      acc.1.pages_failed + urls.countP (fun u => urlFailed env u) ∧
    (urls.foldl (crawl_step env src) acc).1.errors.length =
      acc.1.errors.length + urls.countP (fun u => urlFailed env u) := by
  induction urls generalizing acc with
  | nil => simp
  | cons u t ih =>
    simp only [List.foldl_cons, List.countP_cons]
    have hstep := crawl_step_failed env src acc u
    have hrest := ih (crawl_step env src acc u)
    constructor
    · rw [hrest.1, hstep.1]
      split_ifs <;> omega
    · rw [hrest.2, hstep.2]
      split_ifs <;> omega

/-- C1 counterexample: neither source-not-found nor a per-article
persistence failure is surfaced the way the claim requires.
(1) With an unresolvable source id, `crawl_source` does NOT raise: the
`ValueError` is caught by the function's own `except Exception` handler
and the call returns an ordinary statistics object with the error noted.
(2) With one URL whose fetch and extraction succeed but whose storage
processing raises, the failure is absorbed by `_process_crawl_result`
(which prints and returns `False`): the returned statistics count the
page as crawled but record NOTHING in `errors` and NOTHING in
`pages_failed`, contradicting "each such failure is recorded in the
errors list and counted in pagesFailed". -/
theorem crawl_source_failures_not_thrown_cex :
    (crawl_source "s1"
        ⟨none, true, [],
          fun _ => ⟨none, none, Except.error FetchExn.timeout, ⟨"", "", "", none⟩, 0⟩,
          fun _ => ⟨none, "aid", false⟩, fun _ => none, fun _ => none,
          fun _ _ => false, ⟨[], []⟩, 0, 0⟩ =
      Except.ok { initStats with
        errors := ["Erreur générale: Source s1 non trouvée"] }) ∧
    (crawl_source "s2"
        ⟨some ⟨"s2", "https://h/", "h", false⟩, true, ["https://h/a"],
          fun _ => ⟨none, none, Except.ok ⟨200, "b"⟩, ⟨"contenu", "t", "", none⟩, 0⟩,
          fun _ => ⟨none, "aid", true⟩, fun _ => none, fun _ => none,
          fun _ _ => false, ⟨[], []⟩, 0, 0⟩ =
      Except.ok { initStats with pages_crawled := 1 }) :=
  ⟨rfl, rfl⟩

/-- C1 (amended): `crawl_source` never throws anything to the caller — it
always returns a complete statistics object.  An unknown source id yields
statistics whose error list carries the caught `ValueError` text; a
robots.txt denial yields statistics with the single policy note and zero
pages attempted; otherwise every per-URL transport/HTTP/extraction
failure (and every exception delivered by the gather) is recorded in the
error list and counted in `pages_failed`, with exactly one error entry
per failure.  Per-article persistence failures are absorbed silently by
`_process_crawl_result` and affect no counter (see the counterexample). -/
theorem crawl_source_absorbs_failures (source_id : String) (env : CrawlEnv) :
    (∃ s, crawl_source source_id env = Except.ok s) ∧
    (env.source = none →
      crawl_source source_id env = Except.ok
        { initStats with
          errors := ["Erreur générale: Source " ++ source_id ++ " non trouvée"],
          duration := env.duration }) ∧
    (∀ src, env.source = some src → src.respect_robots_txt = true →
      env.robots_allowed = false →
      crawl_source source_id env = Except.ok
        { initStats with errors := ["Bloqué par robots.txt"], duration := env.duration }) ∧
    (∀ src s, env.source = some src →
      (src.respect_robots_txt && !env.robots_allowed) = false →
      crawl_source source_id env = Except.ok s →
      s.pages_failed = env.urls.countP (fun u => urlFailed env u) ∧
      s.errors.length = s.pages_failed) := by
  refine ⟨?_, ?_, ?_, ?_⟩
  · unfold crawl_source
    cases env.source with
    | none => exact ⟨_, rfl⟩
    | some src =>
      dsimp only
      split_ifs <;> exact ⟨_, rfl⟩
  · intro h
    unfold crawl_source
    rw [h]
  · intro src hsrc hrt hra
    unfold crawl_source
    rw [hsrc]
    dsimp only
    rw [if_pos (by rw [hrt, hra]; rfl)]
  · intro src s hsrc hcond hok
    unfold crawl_source at hok
    rw [hsrc] at hok
    dsimp only at hok
    rw [if_neg (by rw [hcond]; simp)] at hok
    simp only [Except.ok.injEq] at hok
    subst hok
    have hfold := crawl_foldl_failed env src env.urls (initStats, env.engInit, [])
    constructor
    · simpa [crawl_source_run, initStats] using hfold.1
    · have h1 : ({ (crawl_source_run env src).1 with duration := env.duration } :
          Stats).pages_failed = (crawl_source_run env src).1.pages_failed := rfl
      have h2 : ({ (crawl_source_run env src).1 with duration := env.duration } :
          Stats).errors = (crawl_source_run env src).1.errors := rfl
      rw [h1, h2]
      simp only [crawl_source_run] at hfold ⊢
      rw [hfold.1, hfold.2]
      rfl

/-- Witness for C1 at a concrete environment: one URL that times out and
one whose HTTP status is 500 — both failures are absorbed into the
statistics, with one error entry each. -/
theorem crawl_source_absorbs_failures_witness :
    ({ pages_crawled := 2, pages_processed := 0, pages_failed := 2, new_articles := 0,
       updated_articles := 0, duplicates_found := 0,
       errors := ["https://h/a: Timeout", "https://h/b: HTTP 500"], duration := 0 } :
        Stats).pages_failed =
      (["https://h/a", "https://h/b"].countP fun u =>
        urlFailed
          ⟨some ⟨"s3", "https://h/", "h", false⟩, true, ["https://h/a", "https://h/b"],
            fun u2 => if u2 = "https://h/a" then
                ⟨none, none, Except.error FetchExn.timeout, ⟨"", "", "", none⟩, 0⟩
              else ⟨none, none, Except.ok ⟨500, "x"⟩, ⟨"", "", "", none⟩, 0⟩,
            fun _ => ⟨none, "aid", false⟩, fun _ => none, fun _ => none,
            fun _ _ => false, ⟨[], []⟩, 0, 0⟩ u) ∧
    (["https://h/a: Timeout", "https://h/b: HTTP 500"] : List String).length =
      ({ pages_crawled := 2, pages_processed := 0, pages_failed := 2, new_articles := 0,
         updated_articles := 0, duplicates_found := 0,
         errors := ["https://h/a: Timeout", "https://h/b: HTTP 500"], duration := 0 } :
          Stats).pages_failed :=
  (crawl_source_absorbs_failures "s3"
      ⟨some ⟨"s3", "https://h/", "h", false⟩, true, ["https://h/a", "https://h/b"],
        fun u2 => if u2 = "https://h/a" then
            ⟨none, none, Except.error FetchExn.timeout, ⟨"", "", "", none⟩, 0⟩
          else ⟨none, none, Except.ok ⟨500, "x"⟩, ⟨"", "", "", none⟩, 0⟩,
        fun _ => ⟨none, "aid", false⟩, fun _ => none, fun _ => none,
        fun _ _ => false, ⟨[], []⟩, 0, 0⟩).2.2.2
    ⟨"s3", "https://h/", "h", false⟩ _ rfl rfl rfl

theorem pyIsSpace_toLower (c : Char) : pyIsSpace (pyLowerChar c) = pyIsSpace c := by
  unfold pyIsSpace pyLowerChar Char.toLower
  dsimp only
  split_ifs with h
  · have h1 : (Char.ofNat (c.toNat + 32)).toNat = c.toNat + 32 := charOfNatValid (by omega)
    have hub : c.isWhitespace = false := by
      rw [Bool.eq_false_iff]
      intro hws
      rcases (wsIffToNat c).mp hws with hw | hw | hw | hw <;> omega
    have hlb : (Char.ofNat (c.toNat + 32)).isWhitespace = false := by
      rw [Bool.eq_false_iff]
      intro hws
      rcases (wsIffToNat _).mp hws with hw | hw | hw | hw <;> omega
    rw [hub, hlb]
  · rfl

theorem pyLowerChar_idem (c : Char) : pyLowerChar (pyLowerChar c) = pyLowerChar c := by
  by_cases h : c.toNat ≥ 65 ∧ c.toNat ≤ 90
  · have he : pyLowerChar c = Char.ofNat (c.toNat + 32) := by
      unfold pyLowerChar Char.toLower
      dsimp only
      rw [if_pos h]
    have h1 : (Char.ofNat (c.toNat + 32)).toNat = c.toNat + 32 := charOfNatValid (by omega)
    rw [he]
    unfold pyLowerChar Char.toLower
    dsimp only
    rw [if_neg (by intro hcon; rw [h1] at hcon; omega)]
  · have he : pyLowerChar c = c := by
      unfold pyLowerChar Char.toLower
      dsimp only
      rw [if_neg h]
    rw [he, he]

theorem dropWhile_all_neg {p : Char → Bool} {l : List Char}
    (h : ∀ x ∈ l, p x = false) : l.dropWhile p = l := by
  induction l with
  | nil => rfl
  | cons a t ih =>
    rw [List.dropWhile_cons, if_neg (by simp [h a (List.mem_cons_self a t)])]

theorem dropWhile_append_all {p : Char → Bool} {a b : List Char}
    (h : ∀ x ∈ a, p x = true) : (a ++ b).dropWhile p = b.dropWhile p := by
  rw [List.dropWhile_append,
    if_pos (by simp [List.dropWhile_eq_nil_iff.mpr h])]

theorem dropWhile_append_stop {p : Char → Bool} {a b : List Char}
    (h : a.dropWhile p ≠ []) : (a ++ b).dropWhile p = a.dropWhile p ++ b := by
  rw [List.dropWhile_append, if_neg (by simpa [List.isEmpty_iff] using h)]

theorem dropWhile_head_false {p : Char → Bool} (l : List Char) :
    ∀ {x : Char} {xs : List Char}, l.dropWhile p = x :: xs → p x = false := by
  induction l with
  | nil => intro x xs h; simp at h
  | cons a t ih =>
    intro x xs h
    rw [List.dropWhile_cons] at h
    split_ifs at h with hp
    · exact ih h
    · injection h with h1 _
      subst h1
      simpa using hp

theorem wordsOf_cons_ws {c : Char} (h : pyIsSpace c = true) (cs : List Char) :
    wordsOf (c :: cs) = wordsOf cs := by
  simp [wordsOf, wordsAux, h]

theorem wordsAux_nonws {w : List Char} (hw : ∀ ch ∈ w, pyIsSpace ch = false) :
    ∀ (r acc : List Char), wordsAux (w ++ r) acc = wordsAux r (w.reverse ++ acc) := by
  induction w with
  | nil => intro r acc; simp
  | cons c cs ih =>
    intro r acc
    have hc : pyIsSpace c = false := hw c (List.mem_cons_self c cs)
    simp only [List.cons_append, wordsAux, hc, Bool.false_eq_true, if_false, List.append_eq]
    rw [ih (fun ch hch => hw ch (List.mem_cons_of_mem c hch)) r (c :: acc)]
    congr 1
    simp

theorem wordsAux_run_skip {run : List Char} (hr : ∀ ch ∈ run, pyIsSpace ch = true) :
    ∀ m : List Char, wordsAux (run ++ m) [] = wordsAux m [] := by
  induction run with
  | nil => intro m; rfl
  | cons c cs ih =>
    intro m
    have hc : pyIsSpace c = true := hr c (List.mem_cons_self c cs)
    simp only [List.cons_append, wordsAux, hc, if_true, List.isEmpty_nil]
    exact ih (fun ch hch => hr ch (List.mem_cons_of_mem c hch)) m

theorem wordsOf_dropWhile (l : List Char) :
    wordsOf (l.dropWhile pyIsSpace) = wordsOf l := by
  induction l with
  | nil => rfl
  | cons c cs ih =>
    rw [List.dropWhile_cons]
    split_ifs with h
    · rw [ih, wordsOf_cons_ws h]
    · rfl

theorem wordsAux_ne_nil : ∀ (m acc : List Char), acc ≠ [] → wordsAux m acc ≠ [] := by
  intro m
  induction m with
  | nil =>
    intro acc h
    simp [wordsAux, h]
  | cons c cs ih =>
    intro acc h
    by_cases hc : pyIsSpace c = true
    · simp [wordsAux, hc, h]
    · simp only [wordsAux, hc, Bool.false_eq_true, if_false]
      exact ih (c :: acc) (List.cons_ne_nil c acc)

theorem mem_wordsAux : ∀ (m acc w : List Char) (ch : Char),
    w ∈ wordsAux m acc → ch ∈ w → ch ∈ m ∨ ch ∈ acc := by
  intro m
  induction m with
  | nil =>
    intro acc w ch hw hch
    by_cases ha : acc.isEmpty
    · simp [wordsAux, ha] at hw
    · simp only [wordsAux, ha, Bool.false_eq_true, if_false, List.mem_singleton] at hw
      subst hw
      exact Or.inr (List.mem_reverse.mp hch)
  | cons c cs ih =>
    intro acc w ch hw hch
    by_cases hc : pyIsSpace c = true
    · by_cases ha : acc.isEmpty
      · simp only [wordsAux, hc, if_true, ha] at hw
        rcases ih [] w ch hw hch with h | h
        · exact Or.inl (List.mem_cons_of_mem c h)
        · simp at h
      · simp only [wordsAux, hc, if_true, ha, Bool.false_eq_true, if_false, List.mem_cons] at hw
        rcases hw with hw | hw
        · subst hw
          exact Or.inr (List.mem_reverse.mp hch)
        · rcases ih [] w ch hw hch with h | h
          · exact Or.inl (List.mem_cons_of_mem c h)
          · simp at h
    · simp only [wordsAux, hc, Bool.false_eq_true, if_false] at hw
      rcases ih (c :: acc) w ch hw hch with h | h
      · exact Or.inl (List.mem_cons_of_mem c h)
      · rcases List.mem_cons.mp h with h2 | h2
        · exact Or.inl (h2 ▸ List.mem_cons_self c cs)
        · exact Or.inr h2

theorem wordsAux_chars_nonws : ∀ (m acc w : List Char),
    (∀ ch ∈ acc, pyIsSpace ch = false) → w ∈ wordsAux m acc →
    ∀ ch ∈ w, pyIsSpace ch = false := by
  intro m
  induction m with
  | nil =>
    intro acc w hacc hw ch hch
    by_cases ha : acc.isEmpty
    · simp [wordsAux, ha] at hw
    · simp only [wordsAux, ha, Bool.false_eq_true, if_false, List.mem_singleton] at hw
      subst hw
      exact hacc ch (List.mem_reverse.mp hch)
  | cons c cs ih =>
    intro acc w hacc hw ch hch
    by_cases hc : pyIsSpace c = true
    · by_cases ha : acc.isEmpty
      · simp only [wordsAux, hc, if_true, ha] at hw
        exact ih [] w (by simp) hw ch hch
      · simp only [wordsAux, hc, if_true, ha, Bool.false_eq_true, if_false, List.mem_cons] at hw
        rcases hw with hw | hw
        · subst hw
          exact hacc ch (List.mem_reverse.mp hch)
        · exact ih [] w (by simp) hw ch hch
    · replace hc : pyIsSpace c = false := by simpa using hc
      simp only [wordsAux, hc, Bool.false_eq_true, if_false] at hw
      refine ih (c :: acc) w ?_ hw ch hch
      intro x hx
      rcases List.mem_cons.mp hx with h2 | h2
      · exact h2 ▸ hc
      · exact hacc x h2

theorem wordsAux_words_ne_nil : ∀ (m acc w : List Char), w ∈ wordsAux m acc → w ≠ [] := by
  intro m
  induction m with
  | nil =>
    intro acc w hw
    by_cases ha : acc.isEmpty
    · simp [wordsAux, ha] at hw
    · simp only [wordsAux, ha, Bool.false_eq_true, if_false, List.mem_singleton] at hw
      subst hw
      simpa using fun h => ha (by simp [h])
  | cons c cs ih =>
    intro acc w hw
    by_cases hc : pyIsSpace c = true
    · by_cases ha : acc.isEmpty
      · simp only [wordsAux, hc, if_true, ha] at hw
        exact ih [] w hw
      · simp only [wordsAux, hc, if_true, ha, Bool.false_eq_true, if_false, List.mem_cons] at hw
        rcases hw with hw | hw
        · subst hw
          simpa using fun h => ha (by simp [h])
        · exact ih [] w hw
    · simp only [wordsAux, hc, Bool.false_eq_true, if_false] at hw
      exact ih (c :: acc) w hw

theorem collapseGo_nonws_head {d : Char} (hd : pyIsSpace d = false) (t : List Char)
    (b : Bool) : collapseGo (d :: t) b = d :: collapseGo t false := by
  simp [collapseGo, hd]

theorem collapseGo_nonws_prefix {w : List Char}
    (hw : ∀ ch ∈ w, pyIsSpace ch = false) (r : List Char) :
    collapseGo (w ++ r) false = w ++ collapseGo r false := by
  induction w with
  | nil => rfl
  | cons c cs ih =>
    rw [List.cons_append,
      collapseGo_nonws_head (hw c (List.mem_cons_self c cs)) _ false,
      ih (fun ch hch => hw ch (List.mem_cons_of_mem c hch)), List.cons_append]

theorem collapseGo_run_skip {run : List Char}
    (hr : ∀ ch ∈ run, pyIsSpace ch = true) (m : List Char) :
    collapseGo (run ++ m) true = collapseGo m true := by
  induction run with
  | nil => rfl
  | cons c cs ih =>
    rw [List.cons_append]
    have hc : pyIsSpace c = true := hr c (List.mem_cons_self c cs)
    simp only [collapseGo, hc, if_true]
    exact ih (fun ch hch => hr ch (List.mem_cons_of_mem c hch))

theorem pyStrip_all_nonws {w : List Char} (hw : ∀ ch ∈ w, pyIsSpace ch = false) :
    pyStrip w = w := by
  unfold pyStrip
  rw [dropWhile_all_neg hw,
    dropWhile_all_neg (fun x hx => hw x (List.mem_reverse.mp hx)), List.reverse_reverse]

theorem pyStrip_cons_nonws {d : Char} {ds : List Char} (hd : pyIsSpace d = false) :
    ∃ t, pyStrip (d :: ds) = d :: t := by
  unfold pyStrip
  rw [List.dropWhile_cons, if_neg (by simp [hd])]
  rw [show (d :: ds).reverse = ds.reverse ++ [d] from by simp]
  cases hdd : ds.reverse.dropWhile pyIsSpace with
  | nil =>
    rw [dropWhile_append_all (List.dropWhile_eq_nil_iff.mp hdd)]
    exact ⟨[], by simp [List.dropWhile_cons, hd]⟩
  | cons y ys =>
    rw [dropWhile_append_stop (by rw [hdd]; exact List.cons_ne_nil y ys)]
    exact ⟨(ds.reverse.dropWhile pyIsSpace).reverse, by simp⟩

theorem joinWords_cons {w : List Char} {W : List (List Char)} (h : W ≠ []) :
    joinWords (w :: W) = w ++ ' ' :: joinWords W := by
  cases W with
  | nil => exact absurd rfl h
  | cons w2 r => rfl

theorem collapseGo_all_nonws {w : List Char} (hw : ∀ ch ∈ w, pyIsSpace ch = false) :
    collapseGo w false = w := by
  have h2 := collapseGo_nonws_prefix hw []
  simpa [collapseGo] using h2

theorem wordsOf_all_nonws {w : List Char} (hw : ∀ ch ∈ w, pyIsSpace ch = false)
    (hne : w ≠ []) : wordsOf w = [w] := by
  unfold wordsOf
  have h3 := wordsAux_nonws hw [] []
  simp only [List.append_nil] at h3
  rw [h3]
  simp [wordsAux, List.isEmpty_iff, hne]

theorem collapse_strip_words_aux : ∀ (n : ℕ) (l : List Char), l.length ≤ n →
    collapseWs (pyStrip l) = joinWords (wordsOf l) := by
  intro n
  induction n with
  | zero =>
    intro l hl
    have h0 : l = [] := List.eq_nil_of_length_eq_zero (Nat.le_zero.mp hl)
    subst h0
    rfl
  | succ n ih =>
    intro l hl
    cases l with
    | nil => rfl
    | cons c cs =>
      by_cases hc : pyIsSpace c = true
      · have h1 : pyStrip (c :: cs) = pyStrip cs := by
          unfold pyStrip
          rw [List.dropWhile_cons, if_pos hc]
        rw [h1, wordsOf_cons_ws hc]
        exact ih cs (by simp at hl; omega)
      · replace hc : pyIsSpace c = false := by simpa using hc
        have hwr : (c :: cs).takeWhile (fun ch => !(pyIsSpace ch)) ++
            (c :: cs).dropWhile (fun ch => !(pyIsSpace ch)) = c :: cs :=
          List.takeWhile_append_dropWhile _ _
        generalize hw : (c :: cs).takeWhile (fun ch => !(pyIsSpace ch)) = w at hwr
        generalize hr : (c :: cs).dropWhile (fun ch => !(pyIsSpace ch)) = r at hwr
        have hwnon : ∀ ch ∈ w, pyIsSpace ch = false := by
          intro ch hch
          rw [← hw] at hch
          simpa using List.mem_takeWhile_imp hch
        have hwne : w ≠ [] := by
          rw [← hw, List.takeWhile_cons, if_pos (by simp [hc])]
          exact List.cons_ne_nil _ _
        rw [← hwr]
        cases r with
        | nil =>
          rw [List.append_nil, pyStrip_all_nonws hwnon]
          unfold collapseWs
          rw [collapseGo_all_nonws hwnon, wordsOf_all_nonws hwnon hwne]
          rfl
        | cons s rs =>
          have hs : pyIsSpace s = true := by
            have h4 := dropWhile_head_false (p := fun ch => !(pyIsSpace ch)) (c :: cs) hr
            simpa using h4
          have hlenw : 1 ≤ w.length := List.length_pos.mpr hwne
          have hlentot : w.length + (s :: rs).length = (c :: cs).length := by
            rw [← hwr, List.length_append]
          cases hm2 : rs.dropWhile pyIsSpace with
          | nil =>
            have hrsws : ∀ ch ∈ rs, pyIsSpace ch = true :=
              List.dropWhile_eq_nil_iff.mp hm2
            have hstrip : pyStrip (w ++ s :: rs) = w := by
              unfold pyStrip
              rw [dropWhile_append_stop (by rw [dropWhile_all_neg hwnon]; exact hwne),
                dropWhile_all_neg hwnon, List.reverse_append]
              rw [dropWhile_append_all (by
                intro x hx
                rw [List.mem_reverse] at hx
                rcases List.mem_cons.mp hx with h5 | h5
                · exact h5 ▸ hs
                · exact hrsws x h5)]
              rw [dropWhile_all_neg (fun x hx => hwnon x (List.mem_reverse.mp hx))]
              exact List.reverse_reverse w
            have hwords : wordsOf (w ++ s :: rs) = [w] := by
              unfold wordsOf
              rw [wordsAux_nonws hwnon (s :: rs) []]
              simp only [List.append_nil]
              have h6 : wordsAux rs [] = [] := by
                have h7 := wordsAux_run_skip hrsws []
                simpa using h7
              simp [wordsAux, hs, List.isEmpty_iff, hwne, h6]
            rw [hstrip, hwords]
            unfold collapseWs
            rw [collapseGo_all_nonws hwnon]
            rfl
          | cons d ds =>
            have hd : pyIsSpace d = false := dropWhile_head_false rs hm2
            have hrs : rs.takeWhile pyIsSpace ++ (d :: ds) = rs := by
              rw [← hm2]
              exact List.takeWhile_append_dropWhile _ _
            have hrunws : ∀ ch ∈ rs.takeWhile pyIsSpace, pyIsSpace ch = true :=
              fun ch hch => List.mem_takeWhile_imp hch
            have hldecomp : w ++ s :: rs = (w ++ s :: rs.takeWhile pyIsSpace) ++ (d :: ds) := by
              conv_lhs => rw [← hrs]
              simp [List.append_assoc]
            have hdd_ne : (d :: ds).reverse.dropWhile pyIsSpace ≠ [] := by
              intro h5
              have h6 := List.dropWhile_eq_nil_iff.mp h5 d (by simp)
              rw [hd] at h6
              exact Bool.false_ne_true h6
            have hstripdd : pyStrip (d :: ds) = ((d :: ds).reverse.dropWhile pyIsSpace).reverse := by
              unfold pyStrip
              rw [List.dropWhile_cons, if_neg (by simp [hd])]
            have hstrip : pyStrip (w ++ s :: rs) =
                (w ++ s :: rs.takeWhile pyIsSpace) ++ pyStrip (d :: ds) := by
              rw [hstripdd]
              unfold pyStrip
              rw [dropWhile_append_stop (by rw [dropWhile_all_neg hwnon]; exact hwne),
                dropWhile_all_neg hwnon, hldecomp, List.reverse_append,
                dropWhile_append_stop hdd_ne, List.reverse_append, List.reverse_reverse]
            have hlendd : (d :: ds).length ≤ n := by
              have h8 : rs.length = (rs.takeWhile pyIsSpace).length + (d :: ds).length := by
                conv_lhs => rw [← hrs]
                rw [List.length_append]
              simp only [List.length_cons] at hlentot hl h8 ⊢
              omega
            have hwordsdd_ne : wordsOf (d :: ds) ≠ [] := by
              have h9 : wordsOf (d :: ds) = wordsAux ds [d] := by
                simp [wordsOf, wordsAux, hd]
              rw [h9]
              exact wordsAux_ne_nil ds [d] (List.cons_ne_nil d [])
            have hwords : wordsOf (w ++ s :: rs) = w :: wordsOf (d :: ds) := by
              unfold wordsOf
              rw [wordsAux_nonws hwnon (s :: rs) []]
              simp only [List.append_nil]
              have h10 : wordsAux rs [] = wordsAux (d :: ds) [] := by
                have h11 := wordsOf_dropWhile rs
                rw [hm2] at h11
                exact h11.symm
              simp [wordsAux, hs, List.isEmpty_iff, hwne, h10]
            rw [hstrip, hwords, joinWords_cons hwordsdd_ne]
            unfold collapseWs
            rw [List.append_assoc, collapseGo_nonws_prefix hwnon, List.cons_append]
            have h12 : collapseGo (s :: (rs.takeWhile pyIsSpace ++ pyStrip (d :: ds))) false =
                ' ' :: collapseGo (rs.takeWhile pyIsSpace ++ pyStrip (d :: ds)) true := by
              simp [collapseGo, hs]
            rw [h12, collapseGo_run_skip hrunws]
            obtain ⟨t, ht⟩ := @pyStrip_cons_nonws d ds hd
            rw [ht, collapseGo_nonws_head hd t true, ← collapseGo_nonws_head hd t false, ← ht]
            have h13 := ih (d :: ds) hlendd
            unfold collapseWs at h13
            rw [h13]

theorem dropWhile_lower (l : List Char) :
    (l.map pyLowerChar).dropWhile pyIsSpace = (l.dropWhile pyIsSpace).map pyLowerChar := by
  induction l with
  | nil => rfl
  | cons c cs ih =>
    rw [List.map_cons, List.dropWhile_cons, List.dropWhile_cons, pyIsSpace_toLower]
    split_ifs with h
    · exact ih
    · rw [List.map_cons]

theorem pyLower_strip_comm (l : List Char) :
    pyLower (pyStrip l) = pyStrip (pyLower l) := by
  unfold pyLower pyStrip
  rw [dropWhile_lower, ← List.map_reverse, dropWhile_lower, ← List.map_reverse]

theorem normalizeChars_words (l : List Char) :
    normalizeChars l = joinWords (wordsOf (pyLower l)) := by
  unfold normalizeChars
  rw [pyLower_strip_comm]
  exact collapse_strip_words_aux (pyLower l).length (pyLower l) le_rfl

theorem wordsOf_joinWords : ∀ (W : List (List Char)),
    (∀ w ∈ W, w ≠ []) → (∀ w ∈ W, ∀ ch ∈ w, pyIsSpace ch = false) →
    wordsOf (joinWords W) = W := by
  intro W
  induction W with
  | nil => intro _ _; rfl
  | cons w ws ih =>
    intro hne hnw
    cases ws with
    | nil =>
      show wordsOf w = [w]
      exact wordsOf_all_nonws (hnw w (List.mem_cons_self w [])) (hne w (List.mem_cons_self w []))
    | cons w2 r =>
      rw [joinWords_cons (List.cons_ne_nil w2 r)]
      have hih := ih (fun x hx => hne x (List.mem_cons_of_mem w hx))
        (fun x hx => hnw x (List.mem_cons_of_mem w hx))
      unfold wordsOf
      rw [wordsAux_nonws (hnw w (List.mem_cons_self w _)) (' ' :: joinWords (w2 :: r)) []]
      simp only [List.append_nil]
      have hsp : pyIsSpace ' ' = true := by decide
      have hacc : w.reverse.isEmpty = false := by
        simp [List.isEmpty_iff, hne w (List.mem_cons_self w _)]
      simp only [wordsAux, hsp, if_true, hacc, Bool.false_eq_true, if_false,
        List.reverse_reverse]
      rw [show wordsAux (joinWords (w2 :: r)) [] = wordsOf (joinWords (w2 :: r)) from rfl, hih]

theorem mem_joinWords : ∀ (W : List (List Char)) (ch : Char), ch ∈ joinWords W →
    ch = ' ' ∨ ∃ w ∈ W, ch ∈ w := by
  intro W
  induction W with
  | nil =>
    intro ch h
    simp [joinWords] at h
  | cons w ws ih =>
    intro ch h
    cases ws with
    | nil => exact Or.inr ⟨w, List.mem_cons_self w [], h⟩
    | cons w2 r =>
      rw [joinWords_cons (List.cons_ne_nil w2 r)] at h
      rcases List.mem_append.mp h with h1 | h1
      · exact Or.inr ⟨w, List.mem_cons_self w _, h1⟩
      · rcases List.mem_cons.mp h1 with h2 | h2
        · exact Or.inl h2
        · rcases ih ch h2 with h3 | ⟨x, hx, hchx⟩
          · exact Or.inl h3
          · exact Or.inr ⟨x, List.mem_cons_of_mem w hx, hchx⟩

theorem pyLowerChar_space : pyLowerChar ' ' = ' ' := by decide

theorem mem_pyLower_fixed {l : List Char} {ch : Char} (h : ch ∈ pyLower l) :
    pyLowerChar ch = ch := by
  unfold pyLower at h
  rcases List.mem_map.mp h with ⟨x, _, hx⟩
  rw [← hx]
  exact pyLowerChar_idem x

theorem pyLower_fixed_of_forall : ∀ {l : List Char},
    (∀ ch ∈ l, pyLowerChar ch = ch) → pyLower l = l := by
  intro l
  induction l with
  | nil => intro _; rfl
  | cons c cs ih =>
    intro h
    unfold pyLower at ih ⊢
    rw [List.map_cons, h c (List.mem_cons_self c cs),
      ih (fun x hx => h x (List.mem_cons_of_mem c hx))]

theorem normalizeChars_lower_fixed (l : List Char) :
    pyLower (normalizeChars l) = normalizeChars l := by
  rw [normalizeChars_words]
  apply pyLower_fixed_of_forall
  intro ch hch
  rcases mem_joinWords _ ch hch with h1 | ⟨w, hw, hchw⟩
  · rw [h1]
    exact pyLowerChar_space
  · rcases mem_wordsAux (pyLower l) [] w ch hw hchw with h3 | h3
    · exact mem_pyLower_fixed h3
    · simp at h3

theorem normalizeChars_idem (l : List Char) :
    normalizeChars (normalizeChars l) = normalizeChars l := by
  rw [normalizeChars_words (normalizeChars l), normalizeChars_lower_fixed,
    normalizeChars_words l]
  rw [wordsOf_joinWords (wordsOf (pyLower l))
    (fun w hw => wordsAux_words_ne_nil (pyLower l) [] w hw)
    (fun w hw => wordsAux_chars_nonws (pyLower l) [] w (by simp) hw)]

/-- C3: the content fingerprint is idempotent — hashing already-normalized
content gives the same digest — and it is invariant under changes of
whitespace runs and letter case: whenever two contents have the same
lowercased word sequence, their fingerprints agree. (Punctuation is NOT
stripped by `_calculate_content_hash`; see the counterexample.) -/
theorem content_hash_normalization (c c' : String) :
    calculate_content_hash (String.mk (normalizeChars c.data)) = calculate_content_hash c ∧
    (wordsOf (pyLower c.data) = wordsOf (pyLower c'.data) →
      calculate_content_hash c = calculate_content_hash c') := by
  constructor
  · unfold calculate_content_hash
    have h1 : (String.mk (normalizeChars c.data)).data = normalizeChars c.data := rfl
    rw [h1, normalizeChars_idem]
  · intro h
    unfold calculate_content_hash
    rw [normalizeChars_words, normalizeChars_words, h]

/-- Witness for C3 at concrete inputs: "Hello  World" and "hello world"
have the same lowercased word sequence, so the same fingerprint. -/
theorem content_hash_normalization_witness :
    wordsOf (pyLower "Hello  World".data) = wordsOf (pyLower "hello world".data) ∧
    calculate_content_hash "Hello  World" = calculate_content_hash "hello world" :=
  ⟨by decide, (content_hash_normalization "Hello  World" "hello world").2 (by decide)⟩

/-- Counterexample to C3's punctuation part: `_calculate_content_hash` only
collapses whitespace, strips the ends and lowercases; it never removes
punctuation, so adding a full stop changes the fingerprint. -/
theorem content_hash_punctuation_cex :
    calculate_content_hash "ab" ≠ calculate_content_hash "ab." := by decide
